import Mathlib

/-!
Verification of the anduril media-ingestion core against its specification.

The Go sources are shallowly embedded: pure helpers become Lean functions,
filesystem-touching code becomes explicit state passing over a finite map
from path strings to file contents, and external effects (EXIF probe,
modification time, wall clock, copy faults, link results) are supplied by
an explicit environment record.  SHA-256 is modelled as the identity on
file contents (a collision-free abstraction): two files have equal hash
exactly when their bytes are equal.
-/

set_option autoImplicit false

namespace Anduril

/-! ## Characters and strings -/

/-- ASCII lower-casing of one character, as Go `strings.ToLower` does for
the ASCII subset used by the error classifier. -/
def lowerChar (c : Char) : Char :=
  if 'A' ≤ c ∧ c ≤ 'Z' then Char.ofNat (c.toNat + 32) else c

/-- Go `strings.ToLower` on ASCII strings. -/
def lowerStr (s : String) : String :=
  ⟨s.data.map lowerChar⟩

/-- Does the first list occur as a prefix of the second? -/
def startsWithL : List Char → List Char → Bool
  | [], _ => true
  | _ :: _, [] => false
  | a :: as, b :: bs => a = b && startsWithL as bs

/-- Does `suf` occur as a suffix of `s`? -/
def endsWithL (s suf : List Char) : Bool :=
  startsWithL suf.reverse s.reverse

/-- Does `needle` occur as a contiguous sublist of `hay`? -/
def containsSub : List Char → List Char → Bool
  | [], needle => needle.isEmpty
  | c :: t, needle => startsWithL needle (c :: t) || containsSub t needle

/-- Go `strings.Contains s sub`. -/
def strContains (s sub : String) : Bool :=
  containsSub s.data sub.data

/-! ## Decimal rendering (Go `fmt.Sprintf` verbs `%d`, `%02d`, `%04d`) -/

/-- The ASCII character of a decimal digit. -/
def digitChar (d : Nat) : Char :=
  Char.ofNat (48 + d)

/-- Little-endian decimal digits of `n`, with explicit fuel so that the
recursion is structural (`fuel ≥ n` yields all digits). -/
def natDigitsAux : Nat → Nat → List Nat
  | 0, _ => []
  | _ + 1, 0 => []
  | fuel + 1, n + 1 => ((n + 1) % 10) :: natDigitsAux fuel ((n + 1) / 10)

/-- Decimal rendering of a natural number, Go `%d` for the non-negative
values appearing in the program. -/
def natRepr (n : Nat) : String :=
  if n = 0 then "0" else ⟨((natDigitsAux n n).map digitChar).reverse⟩

/-- Zero-pad a rendered number on the left to width `w` (Go `%0wd`). -/
def padZeros (w : Nat) (s : String) : String :=
  if s.length < w then ⟨List.replicate (w - s.length) '0' ++ s.data⟩ else s

/-- Go `fmt.Sprintf "%02d"`. -/
def pad2 (n : Nat) : String := padZeros 2 (natRepr n)

/-- Go `fmt.Sprintf "%04d"`. -/
def pad4 (n : Nat) : String := padZeros 4 (natRepr n)

/-- Value of a little-endian digit list; inverse of `natDigitsAux`. -/
def ofDigitsLE : List Nat → Nat
  | [] => 0
  | d :: ds => d + 10 * ofDigitsLE ds

/-- Numeric value of a decimal digit character; inverse of `digitChar`. -/
def charDigit (c : Char) : Nat := c.toNat - 48

/-! ## Path manipulation (Go `path/filepath`)

The embedding covers `filepath.Base`, `filepath.Dir`, `filepath.Ext` and
`filepath.Join` on the well-formed slash-separated paths the program
builds: non-empty components, no trailing slash, no glob metacharacters
in file names.  Go's additional lexical cleaning is the identity on such
paths. -/

/-- Split a character list at the last occurrence of `sep`, returning the
parts before and after it, or `none` when `sep` does not occur. -/
def splitLastAux (sep : Char) : List Char → Option (List Char × List Char)
  | [] => none
  | c :: t =>
    match splitLastAux sep t with
    | some (pre, post) => some (c :: pre, post)
    | none => if c = sep then some ([], t) else none

/-- Go `filepath.Base`: the final path element. -/
def baseNameOf (p : String) : String :=
  match splitLastAux '/' p.data with
  | some (_, post) => ⟨post⟩
  | none => p

/-- Go `filepath.Dir`: everything but the final path element. -/
def dirOf (p : String) : String :=
  match splitLastAux '/' p.data with
  | some (pre, _) => if pre.isEmpty then "/" else ⟨pre⟩
  | none => "."

/-- Go `filepath.Join` of a directory and one further element. -/
def joinP (d b : String) : String :=
  if d = "" then b else d ++ "/" ++ b

/-- Go `filepath.Ext`: the suffix of the final path element beginning at
its last dot, empty when the element has no dot. -/
def extOf (p : String) : String :=
  match splitLastAux '.' (baseNameOf p).data with
  | some (_, post) => ⟨'.' :: post⟩
  | none => ""

/-- Go `strings.TrimSuffix`. -/
def trimSuffixStr (s suf : String) : String :=
  if endsWithL s.data suf.data then ⟨s.data.take (s.data.length - suf.data.length)⟩ else s

/-- The Go slice `dest[:len(dest)-len(ext)]` with `ext = filepath.Ext dest`:
the full path minus its extension. -/
def dropExtFull (dest : String) : String :=
  ⟨dest.data.take (dest.data.length - (extOf dest).data.length)⟩

/-- Does a file name match the glob pattern `base ++ "_*" ++ ext` (as built
by `handleDuplicateFile`)?  Since file names contain no separator, this is
exactly: the name starts with `base ++ "_"`, ends with `ext`, and is long
enough that the two parts do not overlap. -/
def globNameMatches (base ext name : String) : Bool :=
  startsWithL (base.data ++ ['_']) name.data &&
  endsWithL name.data ext.data &&
  decide (base.data.length + 1 + ext.data.length ≤ name.data.length)

/-! ## Filesystem model

A filesystem is a finite association of path strings to file contents.
`fileHash` is the identity on contents: the SHA-256 abstraction. -/

/-- A filesystem: an association list from paths to file contents. -/
abbrev FS := List (String × String)

/-- Read a file's contents; `none` when the path does not exist. -/
def readFile : FS → String → Option String
  | [], _ => none
  | (q, c) :: t, p => if q = p then some c else readFile t p

/-- All paths present in the filesystem. -/
def pathsOf (fs : FS) : List String := fs.map Prod.fst

/-- Go `os.Stat` existence check. -/
def statExists (fs : FS) (p : String) : Bool :=
  (pathsOf fs).any (fun q => q = p)

/-- Source `fileHash` (internal/copy.go): SHA-256 of a file's contents,
modelled as the contents themselves; fails when the file cannot be read. -/
def fileHash (fs : FS) (p : String) : Option String := readFile fs p

/-- Remove a path from the filesystem (Go `os.Remove`). -/
def removeFile (fs : FS) (p : String) : FS :=
  fs.filter (fun e => decide (e.1 ≠ p))

/-- Write (create or overwrite) a file, as the `rename` step of the atomic
copy does. -/
def setFile (fs : FS) (p c : String) : FS :=
  (p, c) :: removeFile fs p

/-! ## Data model -/

/-- A civil date-time as produced by `time.Date(y, m, d, h, min, s, 0, UTC)`
and by the metadata probe.  Fields are the calendar components. -/
structure GoTime where
  year : Nat
  month : Nat
  day : Nat
  hour : Nat
  minute : Nat
  second : Nat
deriving DecidableEq

/-- Source `FileType` (internal/copy.go): `TypeImage`, `TypeVideo`,
`TypeOther`. -/
inductive FileType where
  | image
  | video
  | other
deriving DecidableEq

/-- Source `DateConfidence` (internal/copy.go), an int enum with
`HIGH = 0, MEDIUM = 1, LOW = 2, VERY_LOW = 3`. -/
inductive DateConfidence where
  | HIGH
  | MEDIUM
  | LOW
  | VERY_LOW
deriving DecidableEq

/-- The integer value of a `DateConfidence`, matching the Go `iota`. -/
def DateConfidence.toNat : DateConfidence → Nat
  | .HIGH => 0
  | .MEDIUM => 1
  | .LOW => 2
  | .VERY_LOW => 3

/-- The fields of the source `Config` struct used by the ingest core.
Extension lists hold lowercased leading-dot extensions. -/
structure Config where
  library : String
  videoLib : String
  imageExt : List String
  videoExt : List String
  useExifTool : Bool
  useHardlinks : Bool
deriving DecidableEq

/-- Source `determineFileType` (internal/copy.go, 1621-1638): classify by
lowercased extension, image set first, then video set, else `Other`. -/
def determineFileType (filePath : String) (cfg : Config) : FileType :=
  let ext := lowerStr (extOf filePath)
  if cfg.imageExt.any (fun e => decide (e = ext)) then .image
  else if cfg.videoExt.any (fun e => decide (e = ext)) then .video
  else .other

/-! ## Error classifier (`CategorizeError`, `ErrorStats`, `ShouldAbort`) -/

/-- Source `ErrorCategory` constants: `io_error`, `hash_mismatch`,
`metadata_error`, `unsupported_format`, `unknown_error`. -/
inductive ErrorCategory where
  | io
  | hash
  | metadata
  | unsupported
  | unknown
deriving DecidableEq

/-- Source `ErrorSeverity` constants: `critical`, `error`, `warning`. -/
inductive ErrorSeverity where
  | critical
  | error
  | warning
deriving DecidableEq

/-- Source `ProcessError` (the fields the core reads; the free-form
`Context` map is not consulted by any claimed behaviour). -/
structure ProcessError where
  filePath : String
  category : ErrorCategory
  severity : ErrorSeverity
  suggestion : String
deriving DecidableEq

/-- Source `CategorizeError` (part_006, 42-120): substring matching on the
lowercased error message, in the source's switch order.  The `err == nil`
early return is outside the model: `msg` is the message of a non-nil
error. -/
def CategorizeError (filePath : String) (msg : String) : ProcessError :=
  let errStr := lowerStr msg
  if strContains errStr "no space left" then
    ⟨filePath, .io, .critical, "Free up disk space on the destination drive and retry the import"⟩
  else if strContains errStr "permission denied" then
    ⟨filePath, .io, .critical, "Check file permissions on both source and destination directories"⟩
  else if strContains errStr "read-only file system" then
    ⟨filePath, .io, .critical, "Destination filesystem is read-only - check mount options"⟩
  else if strContains errStr "too many open files" then
    ⟨filePath, .io, .critical, "System file descriptor limit reached - increase ulimit or restart"⟩
  else if strContains errStr "hash verification failed" then
    ⟨filePath, .hash, .error, "File may be corrupted - verify source file integrity or try re-importing"⟩
  else if strContains errStr "hash mismatch" then
    ⟨filePath, .hash, .error, "Data corruption detected during copy - check disk health"⟩
  else if strContains errStr "input/output error" then
    ⟨filePath, .io, .error, "I/O error - check disk health with SMART tools"⟩
  else if strContains errStr "no such file" then
    ⟨filePath, .io, .error, "Source file disappeared during import - check if external drive disconnected"⟩
  else if strContains errStr "exif" || strContains errStr "metadata" then
    ⟨filePath, .metadata, .warning, "File will be copied to noexif folder - metadata could not be extracted"⟩
  else if strContains errStr "unsupported" || strContains errStr "unknown format" then
    ⟨filePath, .unsupported, .warning, "File format not recognized - will be skipped"⟩
  else
    ⟨filePath, .unknown, .error, "Unexpected error - check logs for details"⟩

/-- Source `ErrorStats` (part_006): the counters driving the circuit
breaker.  `byCategory` and `lastErrors` feed only the human-readable
report and are not modelled. -/
structure ErrorStats where
  total : Nat
  critical : Nat
  errorsN : Nat
  warnings : Nat
  consecutive : Nat
deriving DecidableEq

/-- Source `NewErrorStats`. -/
def NewErrorStats : ErrorStats := ⟨0, 0, 0, 0, 0⟩

/-- Source `ErrorStats.Add`: bump the total and the per-severity counter. -/
def ErrorStats.add (s : ErrorStats) (e : ProcessError) : ErrorStats :=
  let s1 := { s with total := s.total + 1 }
  match e.severity with
  | .critical => { s1 with critical := s1.critical + 1 }
  | .error => { s1 with errorsN := s1.errorsN + 1 }
  | .warning => { s1 with warnings := s1.warnings + 1 }

/-- Why the driver aborted: the two `ShouldAbort` reasons plus the error
rate check the driver applies itself. -/
inductive AbortReason where
  | criticalErr
  | tenConsecutive
  | highErrorRate
deriving DecidableEq

/-- Source `ErrorStats.ShouldAbort` (part_006, 164-180): critical errors
abort immediately, ten consecutive errors abort; the 50% rate rule is
checked externally by the driver. -/
def ErrorStats.shouldAbort (s : ErrorStats) : Option AbortReason :=
  if s.critical > 0 then some .criticalErr
  else if s.consecutive ≥ 10 then some .tenConsecutive
  else none

/-! ## Filename date patterns (`filenamePatterns`, `parseDateFromFilename`)

Each Go regular expression in `filenamePatterns` is a fixed sequence of
literals, single-character classes, fixed-width digit groups, one
alternation `(IMG|VID)` and one trailing `\d+`.  Such a pattern is
embedded as a token list; `findStringSubmatch` scans the candidate start
positions left to right, which for these patterns is exactly Go's
leftmost-match rule (at a given position the match, when it exists, is
unique: all pieces are fixed-width except the trailing `\d+`, after which
the pattern ends, and the two alternatives of `(IMG|VID)` cannot both
match at one position). -/

/-- One piece of an embedded regular expression. -/
inductive Tok where
  /-- `(\d{n})`, a captured fixed-width digit group. -/
  | digits (n : Nat)
  /-- an uncaptured single-character class such as `[_-]`. -/
  | cls (cs : List Char)
  /-- an uncaptured literal. -/
  | lit (s : String)
  /-- a captured alternation of literals, `(IMG|VID)`. -/
  | alt (ss : List String)
  /-- an uncaptured trailing `\d+`. -/
  | moreDigits

/-- Character comparison, optionally case-insensitive (for `(?i)`). -/
def chEq (ci : Bool) (a b : Char) : Bool :=
  if ci then lowerChar a = lowerChar b else a = b

/-- Match a literal against the front of the input, returning the rest. -/
def matchLit (ci : Bool) : List Char → List Char → Option (List Char)
  | [], s => some s
  | _ :: _, [] => none
  | p :: ps, c :: cs => if chEq ci p c then matchLit ci ps cs else none

/-- Consume exactly `n` decimal digits, returning them and the rest. -/
def takeDigits : Nat → List Char → Option (List Char × List Char)
  | 0, s => some ([], s)
  | _ + 1, [] => none
  | n + 1, c :: cs =>
    if c.isDigit then (takeDigits n cs).map (fun r => (c :: r.1, r.2)) else none

/-- Try the alternatives of an alternation in order at the current
position, returning the consumed input text and the rest. -/
def pickAlt (ci : Bool) (s : List Char) : List String → Option (List Char × List Char)
  | [] => none
  | a :: as =>
    match matchLit ci a.data s with
    | some r => some (s.take a.data.length, r)
    | none => pickAlt ci s as

/-- Match a token sequence at the current position, returning the capture
list (in group order) and the remaining input. -/
def matchToks (ci : Bool) : List Tok → List Char → Option (List String × List Char)
  | [], s => some ([], s)
  | Tok.digits n :: ts, s =>
    match takeDigits n s with
    | none => none
    | some (d, r) => (matchToks ci ts r).map (fun pr => (String.mk d :: pr.1, pr.2))
  | Tok.cls cs :: ts, s =>
    match s with
    | [] => none
    | c :: r => if cs.any (fun x => decide (x = c)) then matchToks ci ts r else none
  | Tok.lit l :: ts, s =>
    match matchLit ci l.data s with
    | none => none
    | some r => matchToks ci ts r
  | Tok.alt alts :: ts, s =>
    match pickAlt ci s alts with
    | none => none
    | some (cap, r) => (matchToks ci ts r).map (fun pr => (String.mk cap :: pr.1, pr.2))
  | Tok.moreDigits :: ts, s =>
    let ds := s.takeWhile Char.isDigit
    if ds.isEmpty then none else matchToks ci ts (s.drop ds.length)

/-- Scan start positions left to right; on the first hit return Go's
`FindStringSubmatch` list: the full match text followed by the captures. -/
def findFrom (ci : Bool) (toks : List Tok) : List Char → Option (List String)
  | [] =>
    (matchToks ci toks []).map (fun pr => ("" : String) :: pr.1)
  | c :: t =>
    match matchToks ci toks (c :: t) with
    | some (caps, rest) =>
      some (String.mk ((c :: t).take ((c :: t).length - rest.length)) :: caps)
    | none => findFrom ci toks t

/-- An embedded compiled pattern: case-insensitivity flag plus tokens. -/
structure GoPattern where
  ci : Bool
  toks : List Tok

/-- Go `Regexp.FindStringSubmatch`: `none` for no match, otherwise the
full match followed by the capture groups. -/
def findStringSubmatch (p : GoPattern) (s : String) : Option (List String) :=
  findFrom p.ci p.toks s.data

/-- `(\d{4})(\d{2})(\d{2})[_-](\d{2})(\d{2})(\d{2})` — 20240315_143022. -/
def patGeneric : GoPattern :=
  ⟨false, [.digits 4, .digits 2, .digits 2, .cls ['_', '-'], .digits 2, .digits 2, .digits 2]⟩

/-- `IMG[_-](\d{4})(\d{2})(\d{2})[_-](\d{2})(\d{2})(\d{2})` — IMG_20240315_143022. -/
def patImg : GoPattern :=
  ⟨false, [.lit "IMG", .cls ['_', '-'], .digits 4, .digits 2, .digits 2, .cls ['_', '-'],
    .digits 2, .digits 2, .digits 2]⟩

/-- `(\d{4})[_-](\d{2})[_-](\d{2})[_-](\d{2})[_-](\d{2})[_-](\d{2})` — 2024-03-15-14-30-22. -/
def patDashedFull : GoPattern :=
  ⟨false, [.digits 4, .cls ['_', '-'], .digits 2, .cls ['_', '-'], .digits 2, .cls ['_', '-'],
    .digits 2, .cls ['_', '-'], .digits 2, .cls ['_', '-'], .digits 2]⟩

/-- `(\d{4})[_-](\d{2})[_-](\d{2})` — 2024-03-15. -/
def patDashedDate : GoPattern :=
  ⟨false, [.digits 4, .cls ['_', '-'], .digits 2, .cls ['_', '-'], .digits 2]⟩

/-- `(\d{8})` — 20240315. -/
def patPlain8 : GoPattern := ⟨false, [.digits 8]⟩

/-- `(?i)(IMG|VID)[_-](\d{4})(\d{2})(\d{2})[_-]WA\d+` — WhatsApp. -/
def patWhatsApp : GoPattern :=
  ⟨true, [.alt ["IMG", "VID"], .cls ['_', '-'], .digits 4, .digits 2, .digits 2,
    .cls ['_', '-'], .lit "WA", .moreDigits]⟩

/-- `(?i)signal[_-](\d{4})(\d{2})(\d{2})[_-](\d{2})(\d{2})(\d{2})` — Signal. -/
def patSignal : GoPattern :=
  ⟨true, [.lit "signal", .cls ['_', '-'], .digits 4, .digits 2, .digits 2, .cls ['_', '-'],
    .digits 2, .digits 2, .digits 2]⟩

/-- `(?i)inshot[_-](\d{4})(\d{2})(\d{2})[_-](\d{2})(\d{2})(\d{2})` — InShot. -/
def patInshot : GoPattern :=
  ⟨true, [.lit "inshot", .cls ['_', '-'], .digits 4, .digits 2, .digits 2, .cls ['_', '-'],
    .digits 2, .digits 2, .digits 2]⟩

/-- `(?i)telegram[_-](\d{4})[_-](\d{2})[_-](\d{2})[_-](\d{2})[_-](\d{2})[_-](\d{2})`. -/
def patTelegramFull : GoPattern :=
  ⟨true, [.lit "telegram", .cls ['_', '-'], .digits 4, .cls ['_', '-'], .digits 2,
    .cls ['_', '-'], .digits 2, .cls ['_', '-'], .digits 2, .cls ['_', '-'], .digits 2,
    .cls ['_', '-'], .digits 2]⟩

/-- `(?i)telegram[_-](\d{4})[_-](\d{2})[_-](\d{2})`. -/
def patTelegramDate : GoPattern :=
  ⟨true, [.lit "telegram", .cls ['_', '-'], .digits 4, .cls ['_', '-'], .digits 2,
    .cls ['_', '-'], .digits 2]⟩

/-- Source `filenamePatterns` (internal/copy.go, 1025-1040), in order. -/
def filenamePatterns : List GoPattern :=
  [patGeneric, patImg, patDashedFull, patDashedDate, patPlain8,
   patWhatsApp, patSignal, patInshot, patTelegramFull, patTelegramDate]

/-- Big-endian value of a decimal digit string. -/
def digitsVal (cs : List Char) : Nat :=
  cs.foldl (fun a c => a * 10 + charDigit c) 0

/-- Go `strconv.Atoi` on the strings reaching it here: regex captures,
which are either all digits or, for the `(IMG|VID)` group, alphabetic
(failing).  Signs and overflow never occur on these inputs. -/
def atoi? (s : String) : Option Nat :=
  if s.data ≠ [] ∧ s.data.all Char.isDigit then some (digitsVal s.data) else none

/-- The year-position scan of `parseDateFromFilename`: the first group of
length 4 whose first byte is `'2'`. -/
def yearIdxAux : Nat → List String → Option Nat
  | _, [] => none
  | i, m :: t =>
    if m.data.length = 4 ∧ m.data.head? = some '2' then some i else yearIdxAux (i + 1) t

/-- `yearIdx` of `parseDateFromFilename`: defaults to 1 when no group
looks like a year. -/
def findYearIdx (ms : List String) : Nat :=
  (yearIdxAux 1 (ms.drop 1)).getD 1

/-- The range validation of `parseDateFromFilename` (internal/copy.go,
1255-1261) followed by `time.Date`: `1990 ≤ year ≤ 2050`,
`1 ≤ month ≤ 12`, `1 ≤ day ≤ 31`, time fields in range.  The `< 0`
checks are vacuous over `Nat`, as they are over digit-only parses. -/
def validateDate (y mo d h mi s : Nat) : Option GoTime :=
  if y < 1990 ∨ y > 2050 ∨ mo < 1 ∨ mo > 12 ∨ d < 1 ∨ d > 31 then none
  else if h > 23 ∨ mi > 59 ∨ s > 59 then none
  else some ⟨y, mo, d, h, mi, s⟩

/-- The capture-extraction logic of `parseDateFromFilename`
(internal/copy.go, 1197-1263) on one `FindStringSubmatch` result:
locate the year group, read date components from it, read time
components when present (defaulting to 12:00:00), then validate.
`none` is the Go `continue` to the next pattern. -/
def extractDate (ms : List String) : Option GoTime :=
  let groups := ms.length - 1
  let yearIdx := findYearIdx ms
  if yearIdx + 2 < ms.length then
    match atoi? (ms.getD yearIdx ""), atoi? (ms.getD (yearIdx + 1) ""),
        atoi? (ms.getD (yearIdx + 2) "") with
    | some y, some mo, some d =>
      if yearIdx + 5 < ms.length then
        validateDate y mo d ((atoi? (ms.getD (yearIdx + 3) "")).getD 12)
          ((atoi? (ms.getD (yearIdx + 4) "")).getD 0)
          ((atoi? (ms.getD (yearIdx + 5) "")).getD 0)
      else
        validateDate y mo d 12 0 0
    | _, _, _ => none
  else if groups = 1 ∧ (ms.getD 1 "").data.length = 8 then
    let ds := (ms.getD 1 "").data
    match atoi? ⟨ds.take 4⟩, atoi? ⟨(ds.drop 4).take 2⟩, atoi? ⟨(ds.drop 6).take 2⟩ with
    | some y, some mo, some d => validateDate y mo d 12 0 0
    | _, _, _ => none
  else none

/-- The pattern loop of `parseDateFromFilename`: first pattern whose
match also passes extraction and validation wins; a matching pattern with
invalid fields falls through to the next pattern. -/
def firstPatternDate : List GoPattern → String → Option GoTime
  | [], _ => none
  | p :: ps, base =>
    match findStringSubmatch p base with
    | none => firstPatternDate ps base
    | some ms =>
      match extractDate ms with
      | some t => some t
      | none => firstPatternDate ps base

/-- Source `parseDateFromFilename` (internal/copy.go, 1187-1267). -/
def parseDateFromFilename (filename : String) : Option GoTime :=
  firstPatternDate filenamePatterns (baseNameOf filename)

/-! ## External effects

`Env` packages the results of the calls a single `ProcessFile` run makes
outside the modelled filesystem: the metadata probe, `os.Stat`'s
modification time, the wall clock, the two possible `copyFileAtomic`
attempts, `os.Link`, and the session browse hardlink. -/

/-- Outcome of one `copyFileAtomic` attempt, as decided by the outside
world: a faithful copy, a copy corrupted in transit (the bytes that end
up at the destination), failure with `os.ErrExist`, or another failure. -/
inductive CopyRes where
  | ok
  | corrupt (actual : String)
  | failExist
  | fail (msg : String)
deriving DecidableEq

/-- The environment of one `ProcessFile` call. `exifDate` is the result
of `GetCaptureTimestamp` (the metadata probe, C1 of the spec), `mtime`
the result of `getFileModTime`. -/
structure Env where
  exifDate : Option GoTime
  mtime : Option GoTime
  now : Nat
  copy1 : CopyRes
  copy2 : CopyRes
  linkOk : Bool
  browseOk : Bool
deriving DecidableEq

/-! ## Date resolver (`getBestFileDate`) -/

/-- Source `getBestFileDate` (internal/copy.go, 1269-1292): metadata
probe first (images and videos only), then filename patterns, then
modification time; `none` is the `(time.Time{}, VERY_LOW, err)` failure
return. -/
def getBestFileDate (env : Env) (filePath : String) (cfg : Config) :
    Option (GoTime × DateConfidence) :=
  let fileType := determineFileType filePath cfg
  match (if fileType = .image ∨ fileType = .video then env.exifDate else none) with
  | some t => some (t, .HIGH)
  | none =>
    match parseDateFromFilename filePath with
    | some t => some (t, .MEDIUM)
    | none =>
      match env.mtime with
      | some t => some (t, .LOW)
      | none => none

/-! ## Path planner (`generateDestinationPath`) -/

/-- Source `generateDestinationPath` (internal/copy.go, 1640-1672). -/
def generateDestinationPath (src : String) (fileDate : GoTime) (confidence : DateConfidence)
    (fileType : FileType) (cfg : Config) (user : String) : Except String String :=
  let destBase := baseNameOf src
  let highConfidenceDate := confidence.toNat ≤ DateConfidence.MEDIUM.toNat
  let destDir? : Except String String :=
    if fileType = .video ∧ highConfidenceDate then
      .ok (joinP (joinP (joinP (joinP cfg.videoLib user) (pad4 fileDate.year))
        (pad2 fileDate.month)) (pad2 fileDate.day))
    else if fileType = .video ∧ ¬highConfidenceDate then
      .ok (joinP (joinP (joinP cfg.videoLib user) "noexif")
        (pad4 fileDate.year ++ "-" ++ pad2 fileDate.month))
    else if fileType = .image ∧ highConfidenceDate then
      .ok (joinP (joinP (joinP (joinP cfg.library user) (pad4 fileDate.year))
        (pad2 fileDate.month)) (pad2 fileDate.day))
    else if fileType = .image ∧ ¬highConfidenceDate then
      .ok (joinP (joinP (joinP cfg.library user) "noexif")
        (pad4 fileDate.year ++ "-" ++ pad2 fileDate.month))
    else
      .error ("non-media file passed to generateDestinationPath: " ++ src)
  destDir?.map (fun d => joinP d destBase)

/-! ## Collision resolver (`safeCopyPath`, `timestampSuffixCopyPath`,
`handleDuplicateFile`) -/

/-- The numeric-suffix candidate `fmt.Sprintf("%s_%d%s", base, i, ext)`
probed by `safeCopyPath`. -/
def numberedPath (base ext : String) (i : Nat) : String :=
  base ++ "_" ++ natRepr i ++ ext

/-- The `_2, _3, …` probing loop of `safeCopyPath`, with fuel making the
recursion structural; `pathsOf fs |>.length + 1` candidates suffice
(shown by the pigeonhole argument below), so the `none` case is dead. -/
def safeCopyPathAux (fs : FS) (base ext : String) : Nat → Nat → Option String
  | 0, _ => none
  | fuel + 1, i =>
    let t := numberedPath base ext i
    if statExists fs t then safeCopyPathAux fs base ext fuel (i + 1) else some t

/-- Source `safeCopyPath` (internal/copy.go, 1057-1067): append `_2, _3,
…` to the destination minus its extension until the path is unused. -/
def safeCopyPath (fs : FS) (dest : String) : Option String :=
  safeCopyPathAux fs (dropExtFull dest) (extOf dest) ((pathsOf fs).length + 1) 2

/-- Source `timestampSuffixCopyPath` (internal/copy.go, 1071-1088):
suffix the file name with the Unix timestamp; fall back to
`safeCopyPath` when that path exists. -/
def timestampSuffixCopyPath (fs : FS) (now : Nat) (dest : String) : Option String :=
  let ext := extOf dest
  let name := trimSuffixStr (baseNameOf dest) ext
  let dir := dirOf dest
  let target := joinP dir (name ++ "_" ++ natRepr now ++ ext)
  if statExists fs target then safeCopyPath fs target else some target

/-- Outcome of `handleDuplicateFile`: skip, a fresh final path, a hashing
error, or fuel exhaustion of the suffix search (shown unreachable). -/
inductive DupResult where
  | skip
  | finalPath (p : String)
  | hashErr (msg : String)
  | exhausted
deriving DecidableEq

/-- The sibling enumeration `filepath.Glob(dir/base_*ext)` of
`handleDuplicateFile`: the existing paths whose directory is `dir` and
whose name matches the glob. -/
def globMatches (fs : FS) (dir base ext : String) : List String :=
  (pathsOf fs).filter (fun p => dirOf p = dir && globNameMatches base ext (baseNameOf p))

/-- Source `handleDuplicateFile` (internal/copy.go, 1674-1721): skip when
source and destination hashes agree; otherwise skip when some
timestamp-suffixed sibling carries the source's hash (siblings that fail
to hash are passed over, which cannot happen in the model); otherwise
place the file under a timestamp-suffixed name. -/
def handleDuplicateFile (fs : FS) (now : Nat) (src destPath : String) : DupResult :=
  match fileHash fs src with
  | none => .hashErr ("failed to hash src file " ++ src)
  | some srcHash =>
    match fileHash fs destPath with
    | none => .hashErr ("failed to hash dest file " ++ destPath)
    | some destHash =>
      if srcHash = destHash then .skip
      else
        let dir := dirOf destPath
        let ext := extOf destPath
        let base := trimSuffixStr (baseNameOf destPath) ext
        if (globMatches fs dir base ext).any (fun c => decide (fileHash fs c = some srcHash)) then
          .skip
        else
          match timestampSuffixCopyPath fs now destPath with
          | some p => .finalPath p
          | none => .exhausted

/-! ## Session events and the materializer (`ProcessFile`)

Only the per-file manifest events are modelled; `session_start` and
`session_end` framing events carry no per-file information.  The browse
hardlink name is modelled as the library basename: the session's `_2,
_3, …` suffixing of repeated basenames is private recorder state that no
claim concerns. -/

/-- A per-file manifest event, as written by `LogCopied`,
`LogCopiedTimestamped`, `LogSkippedDuplicate` and `LogDetailedError`. -/
inductive Event where
  | copied (src dest hash : String) (size : Nat) (browse : String)
  | copiedTimestamped (src dest hash : String) (size : Nat) (browse : String)
  | skippedDuplicate (src existing hash : String)
  | errorEv (src msg : String) (category : ErrorCategory) (severity : ErrorSeverity)
deriving DecidableEq

/-- A Go error value as far as `ProcessFile` inspects it: `os.ErrExist`
(checked with `errors.Is`) or any other error with its message. -/
inductive GoErr where
  | exist
  | other (msg : String)
deriving DecidableEq

/-- The message of a `GoErr` (the text of `os.ErrExist` is `"file
exists"`). -/
def GoErr.message : GoErr → String
  | .exist => "file exists"
  | .other m => m

/-- Source `copyFileAtomic` (internal/copy.go, 1131-1176) as observed
through the filesystem map: open the source, then either persist bytes at
`dest` (the environment decides whether those are the source's bytes or
corrupted ones) or fail, leaving the filesystem unchanged — the temp
file, fsync and rename discipline guarantees exactly this all-or-nothing
visibility. -/
def copyFileAtomic (res : CopyRes) (fs : FS) (src dest : String) : Except GoErr FS :=
  match readFile fs src with
  | none => .error (.other ("open " ++ src ++ ": no such file or directory"))
  | some c =>
    match res with
    | .ok => .ok (setFile fs dest c)
    | .corrupt actual => .ok (setFile fs dest actual)
    | .failExist => .error .exist
    | .fail m => .error (.other m)

/-- The result triple of one `ProcessFile` call: the Go error return, the
filesystem afterwards, and the manifest events it logged. -/
abbrev PFResult := Except String Unit × FS × List Event

/-- The verification-and-logging tail of the copy path of `ProcessFile`
(internal/copy.go, 2026-2062): hash source and destination
independently; on mismatch remove the destination and fail; otherwise
log `copied_timestamped` when the final path differs from the planned
one, else `copied`. -/
def verifyAndLogCopy (hasSession browseOk : Bool) (src origDestPath destPath : String)
    (fs : FS) : PFResult :=
  match fileHash fs src with
  | none => (.error ("failed to hash source " ++ src), fs, [])
  | some srcHash =>
    match fileHash fs destPath with
    | none => (.error ("failed to hash destination " ++ destPath), fs, [])
    | some destHash =>
      if srcHash ≠ destHash then
        (.error ("hash verification failed after copy " ++ src ++ " -> " ++ destPath),
          removeFile fs destPath, [])
      else
        if hasSession then
          if browseOk then
            let size := destHash.length
            let browse := baseNameOf destPath
            if destPath ≠ origDestPath then
              (.ok (), fs, [.copiedTimestamped src destPath srcHash size browse])
            else
              (.ok (), fs, [.copied src destPath srcHash size browse])
          else (.ok (), fs, [])
        else (.ok (), fs, [])

/-- The copy-mode branch of `ProcessFile` (internal/copy.go, 2009-2062):
one atomic copy attempt, a single retry against a fresh
timestamp-suffixed destination when the first attempt reports
`os.ErrExist`, then hash verification and logging. -/
def copyBranch (env : Env) (hasSession : Bool) (src origDestPath destPath : String)
    (fs : FS) : PFResult :=
  match copyFileAtomic env.copy1 fs src destPath with
  | .ok fs1 => verifyAndLogCopy hasSession env.browseOk src origDestPath destPath fs1
  | .error .exist =>
    match timestampSuffixCopyPath fs env.now origDestPath with
    | none => (.error "timestamp suffix search exhausted", fs, [])
    | some retryPath =>
      match copyFileAtomic env.copy2 fs src retryPath with
      | .ok fs1 => verifyAndLogCopy hasSession env.browseOk src origDestPath retryPath fs1
      | .error e =>
        (.error ("failed to copy file " ++ src ++ " to " ++ retryPath ++ ": " ++ e.message),
          fs, [])
  | .error e =>
    (.error ("failed to copy file " ++ src ++ " to " ++ destPath ++ ": " ++ e.message), fs, [])

/-- The hardlink-replacement fallback of `ProcessFile` (internal/copy.go,
1958-1984): atomic copy with hash verification, no session logging.
Reached only when `isUpgradeReplace` holds, which the hash-only collision
policy never produces. -/
def hardlinkReplaceBranch (env : Env) (src destPath : String) (fs : FS) : PFResult :=
  match copyFileAtomic env.copy1 fs src destPath with
  | .error e =>
    (.error ("failed to replace file " ++ destPath ++ " with upgraded copy: " ++ e.message),
      fs, [])
  | .ok fs1 =>
    match fileHash fs1 src with
    | none => (.error ("failed to hash source " ++ src), fs1, [])
    | some srcHash =>
      match fileHash fs1 destPath with
      | none => (.error ("failed to hash destination " ++ destPath), fs1, [])
      | some destHash =>
        if srcHash ≠ destHash then
          (.error ("hash verification failed after replacement " ++ src ++ " -> " ++ destPath),
            removeFile fs1 destPath, [])
        else (.ok (), fs1, [])

/-- The hardlink branch of `ProcessFile` (internal/copy.go, 1957-2007):
link source to destination (no verification needed, shared inode), then
log `copied` — regardless of whether the destination carries a timestamp
suffix. -/
def hardlinkBranch (env : Env) (hasSession : Bool) (src origDestPath destPath : String)
    (destExists : Bool) (fs : FS) : PFResult :=
  let isUpgradeReplace := destExists && destPath = origDestPath
  if isUpgradeReplace then hardlinkReplaceBranch env src destPath fs
  else
    match readFile fs src with
    | none => (.error ("failed to link file " ++ src ++ " to " ++ destPath ++
        ": no such file or directory"), fs, [])
    | some c =>
      if env.linkOk then
        let fs1 := setFile fs destPath c
        if hasSession then
          if env.browseOk then
            (.ok (), fs1, [.copied src destPath c c.length (baseNameOf destPath)])
          else (.ok (), fs1, [])
        else (.ok (), fs1, [])
      else
        (.error ("failed to link file " ++ src ++ " to " ++ destPath), fs, [])

/-- The materialization tail of `ProcessFile` after collision resolution
(internal/copy.go, 1953-2062): hardlink mode or atomic copy mode. -/
def materialize (env : Env) (cfg : Config) (hasSession : Bool)
    (src origDestPath destPath : String) (destExists : Bool) (fs : FS) : PFResult :=
  if cfg.useHardlinks then
    hardlinkBranch env hasSession src origDestPath destPath destExists fs
  else
    copyBranch env hasSession src origDestPath destPath fs

/-- Source `ProcessFile` (internal/copy.go, 1891-2063): classify, resolve
the date, plan the destination, honour dry-run, resolve collisions, then
materialize and log.  `hasSession` models a non-nil `session` argument;
`os.MkdirAll` touches only directories, which the path-to-contents map
does not represent. -/
def ProcessFile (env : Env) (cfg : Config) (user : String) (dryRun : Bool)
    (hasSession : Bool) (src : String) (fs : FS) : PFResult :=
  let fileType := determineFileType src cfg
  if fileType = .other then (.ok (), fs, [])
  else
    match getBestFileDate env src cfg with
    | none => (.error ("failed to get file date for " ++ src ++
        ": could not determine file date for " ++ src), fs, [])
    | some (fileDate, confidence) =>
      match generateDestinationPath src fileDate confidence fileType cfg user with
      | .error e => (.error e, fs, [])
      | .ok destPath =>
        let origDestPath := destPath
        if dryRun then (.ok (), fs, [])
        else
          if statExists fs destPath then
            match handleDuplicateFile fs env.now src destPath with
            | .hashErr m => (.error m, fs, [])
            | .exhausted => (.error "timestamp suffix search exhausted", fs, [])
            | .skip =>
              let hash := (fileHash fs src).getD ""
              (.ok (), fs, if hasSession then [.skippedDuplicate src destPath hash] else [])
            | .finalPath p =>
              materialize env cfg hasSession src origDestPath p true fs
          else
            materialize env cfg hasSession src origDestPath destPath false fs

/-! ## Ingest driver (`processFiles`) -/

/-- The outcome of processing one file, as the driver loop observes it:
either success together with the session events the call logged, or a
failure with the source path and error message. -/
inductive Step where
  | ok (events : List Event)
  | err (src : String) (msg : String)
deriving DecidableEq

/-- The driver's final state: all manifest events written, the error
statistics, the success count, how many files were processed, and
whether (and why) the run aborted. -/
structure DriveResult where
  events : List Event
  stats : ErrorStats
  successCount : Nat
  processed : Nat
  aborted : Option AbortReason
deriving DecidableEq

/-- The per-file loop of `processFiles` (cmd, 306-337): on error,
categorize, count, bump the consecutive counter, log one `error` event,
then consult `ShouldAbort` and the 50%-rate rule; on success, reset the
consecutive counter. -/
def processFilesAux : List Step → Nat → ErrorStats → Nat → List Event → DriveResult
  | [], i, stats, succ, acc => ⟨acc, stats, succ, i, none⟩
  | s :: rest, i, stats, succ, acc =>
    match s with
    | .ok evs =>
      processFilesAux rest (i + 1) { stats with consecutive := 0 } (succ + 1) (acc ++ evs)
    | .err src msg =>
      let procErr := CategorizeError src msg
      let stats1 := { stats.add procErr with consecutive := stats.consecutive + 1 }
      let acc1 := acc ++ [Event.errorEv src msg procErr.category procErr.severity]
      match stats1.shouldAbort with
      | some r => ⟨acc1, stats1, succ, i + 1, some r⟩
      | none =>
        if i + 1 ≥ 20 ∧ stats1.total > (i + 1) / 2 then
          ⟨acc1, stats1, succ, i + 1, some .highErrorRate⟩
        else processFilesAux rest (i + 1) stats1 succ acc1

/-- Source `processFiles` (cmd, 281-399), per-file outcomes abstracted
into `Step`s. -/
def processFiles (steps : List Step) : DriveResult :=
  processFilesAux steps 0 NewErrorStats 0 []

/-! ## Session recorder (`NewImportSession`) -/

/-- One reading of the wall clock, in both the representations Go's
`time.Now()` can render: `wallTime` is the local civil time (what
`Format` on the value itself prints) and `utcTime` the same instant's
UTC civil time (what `.UTC().Format` prints). -/
structure Clock where
  utcTime : GoTime
  wallTime : GoTime
deriving DecidableEq

/-- The Go layout string `"2006-01-02-150405"` applied to a civil time. -/
def formatSessionID (t : GoTime) : String :=
  pad4 t.year ++ "-" ++ pad2 t.month ++ "-" ++ pad2 t.day ++ "-" ++
    pad2 t.hour ++ pad2 t.minute ++ pad2 t.second

/-- Source `NewImportSession` (internal/import_session.go, 61-94): the
session ID is `time.Now().Format("2006-01-02-150405")` — the local civil
time — and the session directory is `<library>/imports/<id>`. -/
def NewImportSession (clock : Clock) (libraryPath : String) : String × String :=
  let sessionID := formatSessionID clock.wallTime
  (sessionID, joinP (joinP libraryPath "imports") sessionID)

/-! ## Spec-side definitions

The following definitions transcribe the specification's words, not the
code; theorems below compare the code-derived definitions against them. -/

/-- Modelled from the spec: the error-classification table of §4.6 /
claim C8, in the order listed: each row is the substrings that select it
and the (category, severity) it yields. -/
def specErrorTable : List (List String × ErrorCategory × ErrorSeverity) :=
  [(["no space left"], .io, .critical),
   (["permission denied"], .io, .critical),
   (["read-only file system"], .io, .critical),
   (["too many open files"], .io, .critical),
   (["hash verification failed", "hash mismatch"], .hash, .error),
   (["input/output error"], .io, .error),
   (["no such file"], .io, .error),
   (["exif", "metadata"], .metadata, .warning),
   (["unsupported", "unknown format"], .unsupported, .warning)]

/-- First-matching-row lookup in a classification table, defaulting to
(unknown, error). -/
def lookupTable : List (List String × ErrorCategory × ErrorSeverity) → String →
    ErrorCategory × ErrorSeverity
  | [], _ => (.unknown, .error)
  | row :: rest, low =>
    if row.1.any (fun sub => strContains low sub) then row.2 else lookupTable rest low

/-- Modelled from the spec: classification is the first matching row of
the table against the lowercased message. -/
def specClassify (msg : String) : ErrorCategory × ErrorSeverity :=
  lookupTable specErrorTable (lowerStr msg)

/-- Modelled from the spec: the confident dated destination shape
`<lib>/<user>/<YYYY>/<MM>/<DD>/<basename>` of §4.3 / claim C6. -/
def specDatedPath (lib user : String) (t : GoTime) (base : String) : String :=
  lib ++ "/" ++ user ++ "/" ++ pad4 t.year ++ "/" ++ pad2 t.month ++ "/" ++
    pad2 t.day ++ "/" ++ base

/-- Modelled from the spec: the non-confident destination shape
`<lib>/<user>/noexif/<YYYY-MM>/<basename>` of §4.3 / claim C6. -/
def specNoexifPath (lib user : String) (t : GoTime) (base : String) : String :=
  lib ++ "/" ++ user ++ "/" ++ "noexif" ++ "/" ++ (pad4 t.year ++ "-" ++ pad2 t.month) ++
    "/" ++ base

/-- Is a driver step an error? -/
def stepIsErr : Step → Bool
  | .ok _ => false
  | .err _ _ => true

/-- The classified severity of an error step (none for a success). -/
def stepSeverity : Step → Option ErrorSeverity
  | .ok _ => none
  | .err src msg => some (CategorizeError src msg).severity

/-- Number of error steps among the first `n` steps. -/
def errCountUpTo (steps : List Step) (n : Nat) : Nat :=
  ((steps.take n).filter stepIsErr).length

/-- Does a critical-severity error occur among the first `n` steps? -/
def hasCriticalUpTo (steps : List Step) (n : Nat) : Bool :=
  (steps.take n).any (fun s => stepSeverity s = some ErrorSeverity.critical)

/-- Length of the maximal run of consecutive error steps ending at index
`k` (inclusive): what the driver's `consecutive` counter holds right
after processing step `k`. -/
def consecutiveEndingAt (steps : List Step) (k : Nat) : Nat :=
  (((steps.take (k + 1)).reverse).takeWhile stepIsErr).length

/-- Modelled from the spec (claim C5): the abort condition as evaluated
at error step `k` — a critical error so far, ten consecutive errors
ending here, or (once at least 20 files are processed) errors exceeding
half the processed count. -/
def specAbortCond (steps : List Step) (k : Nat) : Bool :=
  hasCriticalUpTo steps (k + 1) || decide (consecutiveEndingAt steps k ≥ 10) ||
    (decide (k + 1 ≥ 20) && decide (errCountUpTo steps (k + 1) > (k + 1) / 2))

/-- The spec-level abort reason computed at error step `k`, mirroring the
priority order critical > consecutive > rate. -/
def specAbortReason (steps : List Step) (k : Nat) : Option AbortReason :=
  if hasCriticalUpTo steps (k + 1) then some .criticalErr
  else if consecutiveEndingAt steps k ≥ 10 then some .tenConsecutive
  else if k + 1 ≥ 20 ∧ errCountUpTo steps (k + 1) > (k + 1) / 2 then some .highErrorRate
  else none

/-- The manifest events produced by one step: a success's own events, or
the single error event the driver writes for a failure. -/
def stepEvents : Step → List Event
  | .ok evs => evs
  | .err src msg =>
    [Event.errorEv src msg (CategorizeError src msg).category (CategorizeError src msg).severity]

/-- All manifest events of the first `n` steps. -/
def eventsUpTo (steps : List Step) (n : Nat) : List Event :=
  ((steps.take n).map stepEvents).flatten

/-- Is an event one of the success kinds (`copied`, `copied_timestamped`,
`skipped_duplicate`)? -/
def isSuccessEvent : Event → Bool
  | .copied _ _ _ _ _ => true
  | .copiedTimestamped _ _ _ _ _ => true
  | .skippedDuplicate _ _ _ => true
  | .errorEv _ _ _ _ => false

/-- Number of error events in a manifest event list. -/
def countErrorEvents (evs : List Event) : Nat :=
  (evs.filter (fun e => !isSuccessEvent e)).length

/-- Decode a decimal rendering back to its value; used to show `natRepr`
is injective. -/
def decodeRepr (s : String) : Nat :=
  ofDigitsLE (s.data.reverse.map charDigit)

/-- One driver iteration's effect on the error statistics: reset the
consecutive counter on success; on failure, `Add` the categorized error
and bump the consecutive counter. -/
def statsStep (st : ErrorStats) : Step → ErrorStats
  | .ok _ => { st with consecutive := 0 }
  | .err src msg => { st.add (CategorizeError src msg) with consecutive := st.consecutive + 1 }

/-- The error statistics after a prefix of driver steps. -/
def statsAfter (steps : List Step) : ErrorStats :=
  steps.foldl statsStep NewErrorStats

/-! # Theorems -/

/-! ## General helper lemmas -/

/-- A string of positive length is not empty. -/
theorem ne_empty_of_length_pos {s : String} (h : 0 < s.length) : s ≠ "" := by
  intro he
  rw [he] at h
  simp at h

/-- Nonemptiness of slash-joined strings. -/
theorem appendSlash_ne (a b : String) : a ++ "/" ++ b ≠ "" := by
  apply ne_empty_of_length_pos
  have h1 : ("/" : String).length = 1 := rfl
  simp [String.length_append, h1]

/-- On a non-empty directory, `joinP` is plain slash concatenation. -/
theorem joinP_ne (d b : String) (h : d ≠ "") : joinP d b = d ++ "/" ++ b := by
  simp [joinP, h]

/-! ## Claim C8: the error-classification table -/

/-- C8: for every file path and error message, the category and severity
assigned by `CategorizeError` are exactly those of the specified ordered
substring table (`specClassify`): `no space left`, `permission denied`,
`read-only file system`, `too many open files` → (io, critical);
`hash verification failed`, `hash mismatch` → (hash, error);
`input/output error`, `no such file` → (io, error); `exif`/`metadata` →
(metadata, warning); `unsupported`/`unknown format` → (unsupported,
warning); default (unknown, error). -/
theorem C8_error_classifier_table (path msg : String) :
    ((CategorizeError path msg).category, (CategorizeError path msg).severity) =
      specClassify msg := by
  unfold CategorizeError specClassify specErrorTable
  generalize lowerStr msg = low
  cases h1 : strContains low "no space left" <;> simp [lookupTable, h1]
  cases h2 : strContains low "permission denied" <;> simp [lookupTable, h2]
  cases h3 : strContains low "read-only file system" <;> simp [lookupTable, h3]
  cases h4 : strContains low "too many open files" <;> simp [lookupTable, h4]
  cases h5 : strContains low "hash verification failed" <;> simp [lookupTable, h5]
  cases h6 : strContains low "hash mismatch" <;> simp [lookupTable, h6]
  cases h7 : strContains low "input/output error" <;> simp [lookupTable, h7]
  cases h8 : strContains low "no such file" <;> simp [lookupTable, h8]
  cases h9 : strContains low "exif" <;> simp [lookupTable, h9]
  cases h9b : strContains low "metadata" <;> simp [lookupTable, h9b]
  cases h10 : strContains low "unsupported" <;> simp [lookupTable, h10]
  cases h10b : strContains low "unknown format" <;> simp [lookupTable, h10b]

/-! ## Digit-length lemmas (for the session ID format) -/

/-- Length of a string built from an explicit character list. -/
theorem length_mk (l : List Char) : (String.mk l).length = l.length := rfl

/-- With enough fuel, a number below `10 ^ k` has at most `k` digits. -/
theorem natDigitsAux_length_le (fuel : Nat) : ∀ n k : Nat, n ≤ fuel → n < 10 ^ k →
    (natDigitsAux fuel n).length ≤ k := by
  induction fuel with
  | zero =>
    intro n k hn _
    interval_cases n
    simp [natDigitsAux]
  | succ f ih =>
    intro n k hn hk
    match n with
    | 0 => simp [natDigitsAux]
    | m + 1 =>
      cases k with
      | zero => simp at hk
      | succ k' =>
        have hdiv : (m + 1) / 10 < m + 1 := Nat.div_lt_self (by omega) (by omega)
        have h1 : (m + 1) / 10 ≤ f := by omega
        have h2 : (m + 1) / 10 < 10 ^ k' := by
          rw [Nat.div_lt_iff_lt_mul (by omega : (0 : Nat) < 10)]
          rw [pow_succ] at hk
          exact hk
        simpa [natDigitsAux] using ih _ _ h1 h2

/-- A number below `10 ^ k` (with `k ≥ 1`) renders to at most `k`
characters. -/
theorem natRepr_length_le (n k : Nat) (hk : 1 ≤ k) (h : n < 10 ^ k) :
    (natRepr n).length ≤ k := by
  unfold natRepr
  by_cases h0 : n = 0
  · have h1 : ("0" : String).length = 1 := rfl
    simp [h0, h1]
    omega
  · simp [h0, length_mk]
    exact natDigitsAux_length_le n n k (Nat.le_refl n) h

/-- Length of `padZeros`. -/
theorem padZeros_length (w : Nat) (s : String) : (padZeros w s).length = max w s.length := by
  unfold padZeros
  by_cases h : s.length < w
  · have : s.length = s.data.length := rfl
    simp [h, length_mk]
    omega
  · simp [h]
    omega

/-- `%02d` of a value up to 99 is exactly two characters. -/
theorem pad2_length (n : Nat) (h : n ≤ 99) : (pad2 n).length = 2 := by
  have := natRepr_length_le n 2 (by omega) (by omega)
  simp [pad2, padZeros_length]
  omega

/-- `%04d` of a value up to 9999 is exactly four characters. -/
theorem pad4_length (n : Nat) (h : n ≤ 9999) : (pad4 n).length = 4 := by
  have := natRepr_length_le n 4 (by omega) (by omega)
  simp [pad4, padZeros_length]
  omega

/-! ## Claim C9: the session directory name -/

/-- C9 counterexample: the session ID is formatted from the local wall
clock (`time.Now().Format`), not from UTC.  At an instant whose local
civil time is 2025-01-16 00:30:45 while its UTC civil time is 2025-01-15
23:30:45 (a UTC+1 zone), the created directory differs from
`<library>/imports/<UTC timestamp>`. -/
theorem C9_counterexample :
    (NewImportSession ⟨⟨2025, 1, 15, 23, 30, 45⟩, ⟨2025, 1, 16, 0, 30, 45⟩⟩ "lib").2 ≠
      joinP (joinP "lib" "imports") (formatSessionID ⟨2025, 1, 15, 23, 30, 45⟩) := by
  decide

/-- C9 (amended): the session directory is created at
`<library>/imports/<id>` where the id is the current local wall-clock
time (not UTC) formatted `YYYY-MM-DD-HHMMSS` at the moment the session
is opened; for in-range field values the id is the 17-character
timestamp. -/
theorem C9_session_directory (clock : Clock) (lib : String)
    (hy : clock.wallTime.year ≤ 9999) (hmo : clock.wallTime.month ≤ 99)
    (hd : clock.wallTime.day ≤ 99) (hh : clock.wallTime.hour ≤ 99)
    (hmi : clock.wallTime.minute ≤ 99) (hs : clock.wallTime.second ≤ 99) :
    NewImportSession clock lib =
      (formatSessionID clock.wallTime,
        joinP (joinP lib "imports") (formatSessionID clock.wallTime)) ∧
    (formatSessionID clock.wallTime).length = 17 := by
  constructor
  · rfl
  · have h1 : ("-" : String).length = 1 := rfl
    simp [formatSessionID, String.length_append, h1, pad2_length _ hmo, pad2_length _ hd,
      pad2_length _ hh, pad2_length _ hmi, pad2_length _ hs, pad4_length _ hy]

/-- C9 witness: the amended statement at a concrete clock. -/
theorem C9_session_directory_witness :
    NewImportSession ⟨⟨2025, 1, 15, 23, 30, 45⟩, ⟨2025, 1, 16, 0, 30, 45⟩⟩ "lib" =
      (formatSessionID ⟨2025, 1, 16, 0, 30, 45⟩,
        joinP (joinP "lib" "imports") (formatSessionID ⟨2025, 1, 16, 0, 30, 45⟩)) ∧
    (formatSessionID (⟨2025, 1, 16, 0, 30, 45⟩ : GoTime)).length = 17 :=
  C9_session_directory ⟨⟨2025, 1, 15, 23, 30, 45⟩, ⟨2025, 1, 16, 0, 30, 45⟩⟩ "lib"
    (by decide) (by decide) (by decide) (by decide) (by decide) (by decide)

/-! ## Path decomposition lemmas -/

/-- Structure eta for strings. -/
theorem mk_data (s : String) : String.mk s.data = s := rfl

/-- A failed last-separator search means the separator is absent. -/
theorem splitLastAux_eq_none {sep : Char} : ∀ {l : List Char},
    splitLastAux sep l = none → sep ∉ l := by
  intro l
  induction l with
  | nil => intro _ h; simp at h
  | cons c t ih =>
    intro h
    unfold splitLastAux at h
    match hh : splitLastAux sep t with
    | some pr => rw [hh] at h; simp at h
    | none =>
      rw [hh] at h
      by_cases hc : c = sep
      · simp [hc] at h
      · simp [hc] at h ⊢
        constructor
        · intro he; exact hc he.symm
        · exact ih hh

/-- When the separator is absent, the last-separator search fails. -/
theorem splitLastAux_eq_none_of_not_mem {sep : Char} : ∀ {l : List Char},
    sep ∉ l → splitLastAux sep l = none := by
  intro l
  induction l with
  | nil => intro _; rfl
  | cons c t ih =>
    intro h
    simp at h
    unfold splitLastAux
    rw [ih h.2]
    simp
    intro he
    exact h.1 he.symm

/-- The part after the last separator contains no separator. -/
theorem splitLastAux_post {sep : Char} : ∀ {l pre post : List Char},
    splitLastAux sep l = some (pre, post) → sep ∉ post := by
  intro l
  induction l with
  | nil => intro pre post h; simp [splitLastAux] at h
  | cons c t ih =>
    intro pre post h
    unfold splitLastAux at h
    cases hh : splitLastAux sep t with
    | some pr =>
      obtain ⟨p2, q2⟩ := pr
      rw [hh] at h
      cases h
      exact ih hh
    | none =>
      rw [hh] at h
      by_cases hc : c = sep
      · rw [if_pos hc] at h
        cases h
        exact splitLastAux_eq_none hh
      · rw [if_neg hc] at h
        cases h

/-- Splitting at an explicitly appended final separator. -/
theorem splitLastAux_append {sep : Char} (ys : List Char) (h : sep ∉ ys) :
    ∀ xs : List Char, splitLastAux sep (xs ++ sep :: ys) = some (xs, ys) := by
  intro xs
  induction xs with
  | nil =>
    show splitLastAux sep (sep :: ys) = _
    unfold splitLastAux
    rw [splitLastAux_eq_none_of_not_mem h]
    simp
  | cons x xs ih =>
    show splitLastAux sep (x :: (xs ++ sep :: ys)) = _
    unfold splitLastAux
    rw [ih]

/-- Character-list view of a slash join. -/
theorem data_joinP (d b : String) (hd : d ≠ "") :
    (joinP d b).data = d.data ++ '/' :: b.data := by
  rw [joinP_ne d b hd]
  simp [String.data_append]

/-- `filepath.Base` of a join is the joined element, when that element
has no separator. -/
theorem baseNameOf_joinP (d b : String) (hd : d ≠ "") (hb : '/' ∉ b.data) :
    baseNameOf (joinP d b) = b := by
  unfold baseNameOf
  rw [data_joinP d b hd, splitLastAux_append b.data hb d.data]

/-- `filepath.Base` yields a separator-free element. -/
theorem baseNameOf_no_slash (p : String) : '/' ∉ (baseNameOf p).data := by
  unfold baseNameOf
  match h : splitLastAux '/' p.data with
  | some (pre, post) =>
    simpa using splitLastAux_post h
  | none =>
    simpa using splitLastAux_eq_none h

/-- A `joinP` with non-empty directory is non-empty. -/
theorem joinP_ne_empty (d b : String) (h : d ≠ "") : joinP d b ≠ "" := by
  rw [joinP_ne d b h]
  exact appendSlash_ne d b

/-! ## Claim C6: the path planner -/

/-- C6: the planner is deterministic in (type, date, confidence, user):
a confident (HIGH or MEDIUM) image goes to
`<image_lib>/<user>/<YYYY>/<MM>/<DD>/<basename>`, a confident video to
the same shape under the video library, non-confident dates of either
type go to `<lib>/<user>/noexif/<YYYY-MM>/<basename>` under the type's
library, `Other` is rejected with an error, and the basename of every
planned path is the source's basename, verbatim. -/
theorem C6_path_planner (src : String) (t : GoTime) (conf : DateConfidence)
    (ft : FileType) (cfg : Config) (user : String)
    (hlib : cfg.library ≠ "") (hvlib : cfg.videoLib ≠ "") :
    (ft = .image → (conf = .HIGH ∨ conf = .MEDIUM) →
      generateDestinationPath src t conf ft cfg user =
        .ok (specDatedPath cfg.library user t (baseNameOf src))) ∧
    (ft = .video → (conf = .HIGH ∨ conf = .MEDIUM) →
      generateDestinationPath src t conf ft cfg user =
        .ok (specDatedPath cfg.videoLib user t (baseNameOf src))) ∧
    (ft = .image → ¬(conf = .HIGH ∨ conf = .MEDIUM) →
      generateDestinationPath src t conf ft cfg user =
        .ok (specNoexifPath cfg.library user t (baseNameOf src))) ∧
    (ft = .video → ¬(conf = .HIGH ∨ conf = .MEDIUM) →
      generateDestinationPath src t conf ft cfg user =
        .ok (specNoexifPath cfg.videoLib user t (baseNameOf src))) ∧
    (ft = .other → generateDestinationPath src t conf ft cfg user =
      .error ("non-media file passed to generateDestinationPath: " ++ src)) ∧
    (∀ p, generateDestinationPath src t conf ft cfg user = .ok p →
      baseNameOf p = baseNameOf src) := by
  have hc2 : ∀ c : DateConfidence, (c = .HIGH ∨ c = .MEDIUM) ↔ c.toNat ≤ 1 := by
    intro c; cases c <;> simp [DateConfidence.toNat]
  refine ⟨?_, ?_, ?_, ?_, ?_, ?_⟩
  · intro h1 h2
    subst h1
    have hc : conf.toNat ≤ DateConfidence.MEDIUM.toNat := (hc2 conf).mp h2
    unfold generateDestinationPath
    simp [hc]
    rw [joinP_ne cfg.library user hlib, joinP_ne _ _ (appendSlash_ne _ _),
      joinP_ne _ _ (appendSlash_ne _ _), joinP_ne _ _ (appendSlash_ne _ _)]
    simp only [Except.map]
    rw [joinP_ne _ _ (appendSlash_ne _ _)]
    rfl
  · intro h1 h2
    subst h1
    have hc : conf.toNat ≤ DateConfidence.MEDIUM.toNat := (hc2 conf).mp h2
    unfold generateDestinationPath
    simp [hc]
    rw [joinP_ne cfg.videoLib user hvlib, joinP_ne _ _ (appendSlash_ne _ _),
      joinP_ne _ _ (appendSlash_ne _ _), joinP_ne _ _ (appendSlash_ne _ _)]
    simp only [Except.map]
    rw [joinP_ne _ _ (appendSlash_ne _ _)]
    rfl
  · intro h1 h2
    subst h1
    have hc : ¬ conf.toNat ≤ DateConfidence.MEDIUM.toNat := fun hh => h2 ((hc2 conf).mpr hh)
    unfold generateDestinationPath
    simp [hc]
    rw [joinP_ne cfg.library user hlib, joinP_ne _ _ (appendSlash_ne _ _),
      joinP_ne _ _ (appendSlash_ne _ _)]
    simp only [Except.map]
    rw [joinP_ne _ _ (appendSlash_ne _ _)]
    rfl
  · intro h1 h2
    subst h1
    have hc : ¬ conf.toNat ≤ DateConfidence.MEDIUM.toNat := fun hh => h2 ((hc2 conf).mpr hh)
    unfold generateDestinationPath
    simp [hc]
    rw [joinP_ne cfg.videoLib user hvlib, joinP_ne _ _ (appendSlash_ne _ _),
      joinP_ne _ _ (appendSlash_ne _ _)]
    simp only [Except.map]
    rw [joinP_ne _ _ (appendSlash_ne _ _)]
    rfl
  · intro h1
    subst h1
    unfold generateDestinationPath
    simp
    rfl
  · intro p hp
    unfold generateDestinationPath at hp
    cases ft <;> by_cases hc : conf.toNat ≤ DateConfidence.MEDIUM.toNat <;>
      simp only [hc] at hp <;> simp at hp <;> try cases hp
    · exact baseNameOf_joinP _ _
        (joinP_ne_empty _ _ (joinP_ne_empty _ _ (joinP_ne_empty _ _ (joinP_ne_empty _ _ hlib))))
        (baseNameOf_no_slash src)
    · exact baseNameOf_joinP _ _
        (joinP_ne_empty _ _ (joinP_ne_empty _ _ (joinP_ne_empty _ _ hlib)))
        (baseNameOf_no_slash src)
    · exact baseNameOf_joinP _ _
        (joinP_ne_empty _ _ (joinP_ne_empty _ _ (joinP_ne_empty _ _ (joinP_ne_empty _ _ hvlib))))
        (baseNameOf_no_slash src)
    · exact baseNameOf_joinP _ _
        (joinP_ne_empty _ _ (joinP_ne_empty _ _ (joinP_ne_empty _ _ hvlib)))
        (baseNameOf_no_slash src)

/-- C6 witness: the planner at concrete inputs, discharging each
hypothesis of the theorem. -/
theorem C6_path_planner_witness :
    generateDestinationPath "in/photo.jpg" ⟨2024, 3, 15, 14, 30, 22⟩ .HIGH .image
        ⟨"lib", "vlib", [".jpg"], [".mp4"], false, false⟩ "u" =
      .ok (specDatedPath "lib" "u" ⟨2024, 3, 15, 14, 30, 22⟩ (baseNameOf "in/photo.jpg")) :=
  (C6_path_planner "in/photo.jpg" ⟨2024, 3, 15, 14, 30, 22⟩ .HIGH .image
    ⟨"lib", "vlib", [".jpg"], [".mp4"], false, false⟩ "u" (by decide) (by decide)).1
    rfl (Or.inl rfl)

/-! ## Claim C3: the date resolver -/

/-- C3: for a path classified Image or Video the resolver consults, in a
fixed order, the metadata probe (HIGH), the filename patterns (MEDIUM),
the modification time (LOW), and otherwise fails (VERY_LOW); the first
success wins.  Each conjunct holds for every environment regardless of
the later sources' values, which is the formal content of "no later
source is consulted and no cross-checking happens". -/
theorem C3_date_resolver (env : Env) (path : String) (cfg : Config)
    (hft : determineFileType path cfg = .image ∨ determineFileType path cfg = .video) :
    (∀ t, env.exifDate = some t → getBestFileDate env path cfg = some (t, .HIGH)) ∧
    (∀ t, env.exifDate = none → parseDateFromFilename path = some t →
      getBestFileDate env path cfg = some (t, .MEDIUM)) ∧
    (∀ t, env.exifDate = none → parseDateFromFilename path = none → env.mtime = some t →
      getBestFileDate env path cfg = some (t, .LOW)) ∧
    (env.exifDate = none → parseDateFromFilename path = none → env.mtime = none →
      getBestFileDate env path cfg = none) := by
  refine ⟨?_, ?_, ?_, ?_⟩
  · intro t ht
    dsimp only [getBestFileDate]
    rw [if_pos hft, ht]
  · intro t h1 h2
    dsimp only [getBestFileDate]
    rw [if_pos hft, h1, h2]
  · intro t h1 h2 h3
    dsimp only [getBestFileDate]
    rw [if_pos hft, h1, h2, h3]
  · intro h1 h2 h3
    dsimp only [getBestFileDate]
    rw [if_pos hft, h1, h2, h3]

/-- C3 witness: the resolver at a concrete image path and environment. -/
theorem C3_date_resolver_witness :
    getBestFileDate ⟨some ⟨2024, 3, 15, 14, 30, 22⟩, none, 0, .ok, .ok, true, true⟩
        "in/photo.jpg" ⟨"lib", "vlib", [".jpg"], [".mp4"], false, false⟩ =
      some (⟨2024, 3, 15, 14, 30, 22⟩, .HIGH) :=
  (C3_date_resolver ⟨some ⟨2024, 3, 15, 14, 30, 22⟩, none, 0, .ok, .ok, true, true⟩
    "in/photo.jpg" ⟨"lib", "vlib", [".jpg"], [".mp4"], false, false⟩
    (by decide)).1 ⟨2024, 3, 15, 14, 30, 22⟩ rfl

/-! ## Claim C10: non-media files are silently ignored -/

/-- C10: a path whose lowercased extension is in neither configured set
is classified `Other`, and `ProcessFile` returns nil immediately: the
filesystem is untouched and no event is logged, for every environment —
in particular before date resolution or any other effect. -/
theorem C10_non_media_ignored (env : Env) (cfg : Config) (user : String)
    (dryRun hasSession : Bool) (src : String) (fs : FS)
    (himg : lowerStr (extOf src) ∉ cfg.imageExt) (hvid : lowerStr (extOf src) ∉ cfg.videoExt) :
    determineFileType src cfg = .other ∧
    ProcessFile env cfg user dryRun hasSession src fs = (.ok (), fs, []) := by
  have hother : determineFileType src cfg = .other := by
    dsimp only [determineFileType]
    have h1 : (cfg.imageExt.any (fun e => decide (e = lowerStr (extOf src)))) = false := by
      rw [List.any_eq_false]
      intro e he
      simp
      intro hee
      exact himg (hee ▸ he)
    have h2 : (cfg.videoExt.any (fun e => decide (e = lowerStr (extOf src)))) = false := by
      rw [List.any_eq_false]
      intro e he
      simp
      intro hee
      exact hvid (hee ▸ he)
    rw [h1, h2]
    simp
  refine ⟨hother, ?_⟩
  dsimp only [ProcessFile]
  rw [hother]
  simp

/-- C10 witness: a text file is ignored outright. -/
theorem C10_non_media_ignored_witness :
    determineFileType "in/readme.txt" ⟨"lib", "vlib", [".jpg"], [".mp4"], false, false⟩ = .other ∧
    ProcessFile ⟨none, none, 0, .ok, .ok, true, true⟩
        ⟨"lib", "vlib", [".jpg"], [".mp4"], false, false⟩ "u" false true "in/readme.txt"
        [("in/readme.txt", "hello")] =
      (.ok (), [("in/readme.txt", "hello")], []) :=
  C10_non_media_ignored ⟨none, none, 0, .ok, .ok, true, true⟩
    ⟨"lib", "vlib", [".jpg"], [".mp4"], false, false⟩ "u" false true "in/readme.txt"
    [("in/readme.txt", "hello")] (by decide) (by decide)

/-! ## Claim C7: filename-pattern validation -/

/-- Outcomes of `validateDate` satisfy the claimed ranges. -/
theorem validateDate_sound {y mo d h mi s : Nat} {t : GoTime}
    (hv : validateDate y mo d h mi s = some t) :
    1990 ≤ t.year ∧ t.year ≤ 2050 ∧ 1 ≤ t.month ∧ t.month ≤ 12 ∧ 1 ≤ t.day ∧ t.day ≤ 31 ∧
    t.hour ≤ 23 ∧ t.minute ≤ 59 ∧ t.second ≤ 59 := by
  unfold validateDate at hv
  split_ifs at hv with h1 h2
  · cases hv
    push_neg at h1 h2
    simp only []
    omega

/-- Outcomes of `extractDate` satisfy the claimed ranges. -/
theorem extractDate_sound {ms : List String} {t : GoTime} (hv : extractDate ms = some t) :
    1990 ≤ t.year ∧ t.year ≤ 2050 ∧ 1 ≤ t.month ∧ t.month ≤ 12 ∧ 1 ≤ t.day ∧ t.day ≤ 31 ∧
    t.hour ≤ 23 ∧ t.minute ≤ 59 ∧ t.second ≤ 59 := by
  simp only [extractDate] at hv
  split_ifs at hv <;> (try split at hv) <;>
    first
    | exact validateDate_sound hv
    | simp at hv

/-- Outcomes of the pattern loop satisfy the claimed ranges. -/
theorem firstPatternDate_sound : ∀ (ps : List GoPattern) (base : String) (t : GoTime),
    firstPatternDate ps base = some t →
    1990 ≤ t.year ∧ t.year ≤ 2050 ∧ 1 ≤ t.month ∧ t.month ≤ 12 ∧ 1 ≤ t.day ∧ t.day ≤ 31 ∧
    t.hour ≤ 23 ∧ t.minute ≤ 59 ∧ t.second ≤ 59 := by
  intro ps
  induction ps with
  | nil => intro base t h; simp [firstPatternDate] at h
  | cons p ps ih =>
    intro base t h
    unfold firstPatternDate at h
    split at h
    · exact ih base t h
    · split at h
      · cases h
        next he => exact extractDate_sound he
      · exact ih base t h

/-- C7: filename parsing yields MEDIUM only through validation — every
parsed date satisfies `1990 ≤ year ≤ 2050`, `1 ≤ month ≤ 12`,
`1 ≤ day ≤ 31` and in-range time fields; patterns without time fields
default to 12:00:00 (WhatsApp and date-only Telegram rows); the
all-nines filename defeats every pattern, and the resolver then falls
back to the modification time at LOW confidence. -/
theorem C7_filename_parse_validation :
    (∀ (name : String) (t : GoTime), parseDateFromFilename name = some t →
      1990 ≤ t.year ∧ t.year ≤ 2050 ∧ 1 ≤ t.month ∧ t.month ≤ 12 ∧ 1 ≤ t.day ∧ t.day ≤ 31 ∧
      t.hour ≤ 23 ∧ t.minute ≤ 59 ∧ t.second ≤ 59) ∧
    parseDateFromFilename "IMG-20240315-WA0001.jpg" = some ⟨2024, 3, 15, 12, 0, 0⟩ ∧
    parseDateFromFilename "telegram_2024-03-15.jpg" = some ⟨2024, 3, 15, 12, 0, 0⟩ ∧
    parseDateFromFilename "IMG_20240315_143022.jpg" = some ⟨2024, 3, 15, 14, 30, 22⟩ ∧
    parseDateFromFilename "IMG_99999999_999999.jpg" = none ∧
    (∀ (env : Env) (cfg : Config) (t : GoTime), env.exifDate = none → env.mtime = some t →
      getBestFileDate env "IMG_99999999_999999.jpg" cfg = some (t, .LOW)) := by
  refine ⟨?_, by decide, by decide, by decide, by decide, ?_⟩
  · intro name t h
    unfold parseDateFromFilename at h
    exact firstPatternDate_sound _ _ t h
  · intro env cfg t h1 h2
    dsimp only [getBestFileDate]
    rw [h1, ite_self, show parseDateFromFilename "IMG_99999999_999999.jpg" = none by decide, h2]

/-- C7 witness: the validation conjunct applied at a parsed row, and the
LOW fallback at a concrete environment. -/
theorem C7_filename_parse_validation_witness :
    (1990 ≤ 2024 ∧ 2024 ≤ 2050 ∧ 1 ≤ 3 ∧ 3 ≤ 12 ∧ 1 ≤ 15 ∧ 15 ≤ 31 ∧
      14 ≤ 23 ∧ 30 ≤ 59 ∧ 22 ≤ 59) ∧
    getBestFileDate ⟨none, some ⟨2020, 1, 2, 3, 4, 5⟩, 0, .ok, .ok, true, true⟩
        "IMG_99999999_999999.jpg" ⟨"lib", "vlib", [".jpg"], [".mp4"], false, false⟩ =
      some (⟨2020, 1, 2, 3, 4, 5⟩, .LOW) :=
  ⟨C7_filename_parse_validation.1 "IMG_20240315_143022.jpg" ⟨2024, 3, 15, 14, 30, 22⟩
      (by decide),
    C7_filename_parse_validation.2.2.2.2.2 ⟨none, some ⟨2020, 1, 2, 3, 4, 5⟩, 0, .ok, .ok,
      true, true⟩ ⟨"lib", "vlib", [".jpg"], [".mp4"], false, false⟩ ⟨2020, 1, 2, 3, 4, 5⟩
      rfl rfl⟩

/-! ## Claim C1: decimal-rendering injectivity and the pigeonhole bound -/

/-- The decoder inverts the digit expansion (given enough fuel). -/
theorem ofDigitsLE_natDigitsAux : ∀ (fuel n : Nat), n ≤ fuel →
    ofDigitsLE (natDigitsAux fuel n) = n := by
  intro fuel
  induction fuel with
  | zero =>
    intro n h
    interval_cases n
    simp [natDigitsAux, ofDigitsLE]
  | succ f ih =>
    intro n h
    match n with
    | 0 => simp [natDigitsAux, ofDigitsLE]
    | m + 1 =>
      have hlt : (m + 1) / 10 < m + 1 := Nat.div_lt_self (by omega) (by omega)
      have hle : (m + 1) / 10 ≤ f := by omega
      simp [natDigitsAux, ofDigitsLE, ih _ hle]
      omega

/-- Every produced digit is below ten. -/
theorem natDigitsAux_lt_ten : ∀ (fuel n d : Nat), d ∈ natDigitsAux fuel n → d < 10 := by
  intro fuel
  induction fuel with
  | zero => intro n d h; simp [natDigitsAux] at h
  | succ f ih =>
    intro n d h
    match n with
    | 0 => simp [natDigitsAux] at h
    | m + 1 =>
      simp [natDigitsAux] at h
      rcases h with h | h
      · omega
      · exact ih _ _ h

/-- Digit characters decode back to their digit. -/
theorem charDigit_digitChar (d : Nat) (h : d < 10) : charDigit (digitChar d) = d := by
  interval_cases d <;> decide

/-- Mapping a function that fixes every member is the identity. -/
theorem map_id_of_mem {α : Type} (l : List α) (f : α → α) (h : ∀ a ∈ l, f a = a) :
    l.map f = l := by
  induction l with
  | nil => rfl
  | cons x xs ih =>
    simp only [List.map_cons, h x (by simp)]
    rw [ih (fun a ha => h a (by simp [ha]))]

/-- `decodeRepr` inverts `natRepr`. -/
theorem decodeRepr_natRepr (n : Nat) : decodeRepr (natRepr n) = n := by
  by_cases h0 : n = 0
  · subst h0
    decide
  · unfold decodeRepr natRepr
    rw [if_neg h0]
    show ofDigitsLE ((((natDigitsAux n n).map digitChar).reverse).reverse.map charDigit) = n
    rw [List.reverse_reverse, List.map_map]
    rw [map_id_of_mem _ (charDigit ∘ digitChar)
      (fun d hd => charDigit_digitChar d (natDigitsAux_lt_ten n n d hd))]
    exact ofDigitsLE_natDigitsAux n n (Nat.le_refl n)

/-- `natRepr` is injective. -/
theorem natRepr_injective {a b : Nat} (h : natRepr a = natRepr b) : a = b := by
  rw [← decodeRepr_natRepr a, h, decodeRepr_natRepr]

/-- Distinct suffix numbers give distinct candidate paths. -/
theorem numberedPath_inj (base ext : String) {i j : Nat}
    (h : numberedPath base ext i = numberedPath base ext j) : i = j := by
  apply natRepr_injective (a := i) (b := j)
  unfold numberedPath at h
  have hd := congrArg String.data h
  simp only [String.data_append, List.append_assoc] at hd
  have h1 := List.append_cancel_left hd
  have h2 := List.append_cancel_left h1
  have h3 := List.append_cancel_right h2
  exact String.ext h3

/-- `os.Stat` existence agrees with path membership. -/
theorem statExists_iff (fs : FS) (p : String) : statExists fs p = true ↔ p ∈ pathsOf fs := by
  simp [statExists, List.any_eq_true]

/-- A readable file exists. -/
theorem statExists_of_readFile {fs : FS} {p c : String} (h : readFile fs p = some c) :
    statExists fs p = true := by
  rw [statExists_iff]
  induction fs with
  | nil => simp [readFile] at h
  | cons e t ih =>
    unfold readFile at h
    by_cases he : e.1 = p
    · simp [pathsOf, he]
    · rw [if_neg he] at h
      simp [pathsOf]
      right
      simpa [pathsOf] using ih h

/-- Pigeonhole: among `|paths| + 1` numbered candidates starting at any
index, one is unused. -/
theorem exists_free_numbered (fs : FS) (base ext : String) (start : Nat) :
    ∃ i, start ≤ i ∧ i < start + ((pathsOf fs).length + 1) ∧
      statExists fs (numberedPath base ext i) = false := by
  by_contra hcon
  push_neg at hcon
  have hall : ∀ i ∈ Finset.Ico start (start + ((pathsOf fs).length + 1)),
      numberedPath base ext i ∈ pathsOf fs := by
    intro i hi
    rw [Finset.mem_Ico] at hi
    have hb := hcon i hi.1 hi.2
    rw [← statExists_iff]
    cases hx : statExists fs (numberedPath base ext i) with
    | false => exact absurd hx hb
    | true => rfl
  have hinj : Set.InjOn (numberedPath base ext)
      (Finset.Ico start (start + ((pathsOf fs).length + 1))) :=
    fun i _ j _ h => numberedPath_inj base ext h
  have hsub : (Finset.Ico start (start + ((pathsOf fs).length + 1))).image
      (numberedPath base ext) ⊆ (pathsOf fs).toFinset := by
    intro x hx
    rw [Finset.mem_image] at hx
    obtain ⟨i, hi, rfl⟩ := hx
    rw [List.mem_toFinset]
    exact hall i hi
  have h1 := Finset.card_le_card hsub
  rw [Finset.card_image_of_injOn hinj] at h1
  have h2 : (Finset.Ico start (start + ((pathsOf fs).length + 1))).card =
      (pathsOf fs).length + 1 := by simp
  have h3 : (pathsOf fs).toFinset.card ≤ (pathsOf fs).length := (pathsOf fs).toFinset_card_le
  omega

/-- Correctness of the numeric-suffix probing loop: when a free
candidate exists within the fuel window, the loop returns the first free
candidate. -/
theorem safeCopyPathAux_spec (fs : FS) (base ext : String) : ∀ (fuel start : Nat),
    (∃ i, start ≤ i ∧ i < start + fuel ∧ statExists fs (numberedPath base ext i) = false) →
    ∃ p, safeCopyPathAux fs base ext fuel start = some p ∧
      statExists fs p = false ∧
      ∃ i, start ≤ i ∧ p = numberedPath base ext i ∧
        ∀ j, start ≤ j → j < i → statExists fs (numberedPath base ext j) = true := by
  intro fuel
  induction fuel with
  | zero =>
    intro start h
    obtain ⟨i, h1, h2, _⟩ := h
    omega
  | succ f ih =>
    intro start hex
    unfold safeCopyPathAux
    cases hs : statExists fs (numberedPath base ext start) with
    | true =>
      rw [if_pos hs]
      have hex2 : ∃ i, start + 1 ≤ i ∧ i < (start + 1) + f ∧
          statExists fs (numberedPath base ext i) = false := by
        obtain ⟨i, hi1, hi2, hi3⟩ := hex
        have hne : i ≠ start := by
          intro he
          rw [he, hs] at hi3
          cases hi3
        exact ⟨i, by omega, by omega, hi3⟩
      obtain ⟨p, hp1, hp2, i, hi1, hi2, hi3⟩ := ih (start + 1) hex2
      refine ⟨p, hp1, hp2, i, by omega, hi2, ?_⟩
      intro j hj1 hj2
      rcases Nat.eq_or_lt_of_le hj1 with he | hl
      · rw [he] at hs
        exact hs
      · exact hi3 j hl hj2
    | false =>
      rw [if_neg (by simp [hs])]
      exact ⟨numberedPath base ext start, rfl, hs, start, Nat.le_refl _, rfl,
        fun j hj1 hj2 => by omega⟩

/-- `safeCopyPath` always finds the first free numbered candidate. -/
theorem safeCopyPath_spec (fs : FS) (dest : String) :
    ∃ p, safeCopyPath fs dest = some p ∧ statExists fs p = false ∧
      ∃ i, 2 ≤ i ∧ p = numberedPath (dropExtFull dest) (extOf dest) i ∧
        ∀ j, 2 ≤ j → j < i →
          statExists fs (numberedPath (dropExtFull dest) (extOf dest) j) = true := by
  unfold safeCopyPath
  exact safeCopyPathAux_spec fs (dropExtFull dest) (extOf dest) ((pathsOf fs).length + 1) 2
    (exists_free_numbered fs (dropExtFull dest) (extOf dest) 2)

/-- `timestampSuffixCopyPath` returns a fresh path: the timestamped name
when it is unused, otherwise the first free numeric variant of the
timestamped name. -/
theorem timestampSuffixCopyPath_spec (fs : FS) (now : Nat) (dest : String) :
    ∃ p, timestampSuffixCopyPath fs now dest = some p ∧ statExists fs p = false ∧
      (let target := joinP (dirOf dest)
        (trimSuffixStr (baseNameOf dest) (extOf dest) ++ "_" ++ natRepr now ++ extOf dest)
       (statExists fs target = false ∧ p = target) ∨
       (statExists fs target = true ∧ ∃ i, 2 ≤ i ∧
          p = numberedPath (dropExtFull target) (extOf target) i ∧
          ∀ j, 2 ≤ j → j < i →
            statExists fs (numberedPath (dropExtFull target) (extOf target) j) = true)) := by
  unfold timestampSuffixCopyPath
  set target := joinP (dirOf dest)
    (trimSuffixStr (baseNameOf dest) (extOf dest) ++ "_" ++ natRepr now ++ extOf dest) with ht
  cases hs : statExists fs target with
  | true =>
    rw [if_pos hs]
    obtain ⟨p, hp1, hp2, i, hi1, hi2, hi3⟩ := safeCopyPath_spec fs target
    exact ⟨p, hp1, hp2, Or.inr ⟨hs, i, hi1, hi2, hi3⟩⟩
  | false =>
    rw [if_neg (by simp [hs])]
    exact ⟨target, rfl, hs, Or.inl ⟨hs, rfl⟩⟩

/-- C1: the collision resolver decides exactly as specified.  With both
hashes computable: identical content at the canonical name skips;
different content with a glob sibling `base_*.ext` carrying the source's
hash skips; a skip always means byte-identical content already exists in
the library (nothing is discarded); and otherwise the resolver yields a
final path — the timestamp-suffixed name `dir/base_<unix_now>.ext`, or,
when that very path exists, the first free `_2, _3, …` variant of the
timestamped name — which is unused, so different content never
overwrites an existing file. -/
theorem C1_collision_resolver (fs : FS) (now : Nat) (src destPath : String)
    (srcHash destHash : String)
    (hsrc : fileHash fs src = some srcHash) (hdest : fileHash fs destPath = some destHash) :
    (srcHash = destHash → handleDuplicateFile fs now src destPath = .skip) ∧
    (srcHash ≠ destHash →
      (globMatches fs (dirOf destPath) (trimSuffixStr (baseNameOf destPath) (extOf destPath))
          (extOf destPath)).any (fun c => decide (fileHash fs c = some srcHash)) = true →
      handleDuplicateFile fs now src destPath = .skip) ∧
    (handleDuplicateFile fs now src destPath = .skip →
      ∃ q, statExists fs q = true ∧ fileHash fs q = some srcHash) ∧
    (srcHash ≠ destHash →
      (globMatches fs (dirOf destPath) (trimSuffixStr (baseNameOf destPath) (extOf destPath))
          (extOf destPath)).any (fun c => decide (fileHash fs c = some srcHash)) = false →
      ∃ p, handleDuplicateFile fs now src destPath = .finalPath p ∧
        statExists fs p = false ∧
        (let target := joinP (dirOf destPath)
            (trimSuffixStr (baseNameOf destPath) (extOf destPath) ++ "_" ++ natRepr now ++
              extOf destPath)
         (statExists fs target = false ∧ p = target) ∨
         (statExists fs target = true ∧ ∃ i, 2 ≤ i ∧
            p = numberedPath (dropExtFull target) (extOf target) i ∧
            ∀ j, 2 ≤ j → j < i →
              statExists fs (numberedPath (dropExtFull target) (extOf target) j) = true))) := by
  refine ⟨?_, ?_, ?_, ?_⟩
  · intro heq
    unfold handleDuplicateFile
    simp only [hsrc, hdest]
    rw [if_pos heq]
  · intro hne hany
    unfold handleDuplicateFile
    simp only [hsrc, hdest]
    rw [if_neg hne, if_pos hany]
  · intro hskip
    unfold handleDuplicateFile at hskip
    simp only [hsrc, hdest] at hskip
    by_cases heq : srcHash = destHash
    · exact ⟨destPath, statExists_of_readFile hdest, by rw [hdest, heq]⟩
    · rw [if_neg heq] at hskip
      by_cases hany : (globMatches fs (dirOf destPath)
          (trimSuffixStr (baseNameOf destPath) (extOf destPath)) (extOf destPath)).any
          (fun c => decide (fileHash fs c = some srcHash)) = true
      · rw [List.any_eq_true] at hany
        obtain ⟨q, hq1, hq2⟩ := hany
        refine ⟨q, ?_, by simpa using hq2⟩
        rw [statExists_iff]
        exact List.mem_of_mem_filter hq1
      · rw [if_neg hany] at hskip
        obtain ⟨p, hp1, _, _⟩ := timestampSuffixCopyPath_spec fs now destPath
        rw [hp1] at hskip
        cases hskip
  · intro hne hany
    unfold handleDuplicateFile
    simp only [hsrc, hdest]
    rw [if_neg hne, if_neg (by simp [hany])]
    obtain ⟨p, hp1, hp2, hp3⟩ := timestampSuffixCopyPath_spec fs now destPath
    rw [hp1]
    exact ⟨p, rfl, hp2, hp3⟩

/-- C1 witness: a concrete skip of byte-identical content, discharging
the hash hypotheses. -/
theorem C1_collision_resolver_witness :
    handleDuplicateFile [("in/a.jpg", "X"), ("lib/u/a.jpg", "X")] 111 "in/a.jpg"
      "lib/u/a.jpg" = .skip :=
  (C1_collision_resolver [("in/a.jpg", "X"), ("lib/u/a.jpg", "X")] 111 "in/a.jpg"
    "lib/u/a.jpg" "X" "X" (by decide) (by decide)).1 rfl

/-! ## Filesystem read/write lemmas -/

/-- Reading back a fresh write. -/
theorem readFile_setFile_self (fs : FS) (p c : String) :
    readFile (setFile fs p c) p = some c := by
  simp [setFile, readFile]

/-- A removed path is unreadable. -/
theorem readFile_removeFile (fs : FS) (p : String) :
    readFile (removeFile fs p) p = none := by
  induction fs with
  | nil => rfl
  | cons e t ih =>
    show readFile (List.filter (fun x => decide (x.1 ≠ p)) (e :: t)) p = none
    rw [List.filter_cons]
    by_cases he : e.1 = p
    · rw [show (decide (e.1 ≠ p)) = false by simp [he]]
      simp only [Bool.false_eq_true, if_false]
      exact ih
    · rw [show (decide (e.1 ≠ p)) = true by simp [he]]
      simp only [if_true]
      show (if e.1 = p then some e.2 else readFile (List.filter (fun x => decide (x.1 ≠ p)) t) p) = none
      rw [if_neg he]
      exact ih

/-- Removal does not disturb other paths. -/
theorem readFile_removeFile_other (fs : FS) (p q : String) (h : q ≠ p) :
    readFile (removeFile fs p) q = readFile fs q := by
  induction fs with
  | nil => rfl
  | cons e t ih =>
    show readFile (List.filter (fun x => decide (x.1 ≠ p)) (e :: t)) q = _
    rw [List.filter_cons]
    by_cases he : e.1 = p
    · rw [show (decide (e.1 ≠ p)) = false by simp [he]]
      simp only [Bool.false_eq_true, if_false]
      have h2 : readFile (e :: t) q = readFile t q := by
        show (if e.1 = q then some e.2 else readFile t q) = readFile t q
        rw [if_neg (fun hc => h (by rw [← hc, he]))]
      rw [h2]
      exact ih
    · rw [show (decide (e.1 ≠ p)) = true by simp [he]]
      simp only [if_true]
      show (if e.1 = q then some e.2 else readFile (List.filter (fun x => decide (x.1 ≠ p)) t) q) =
        (if e.1 = q then some e.2 else readFile t q)
      by_cases heq : e.1 = q
      · rw [if_pos heq, if_pos heq]
      · rw [if_neg heq, if_neg heq]
        exact ih

/-- Writes do not disturb other paths. -/
theorem readFile_setFile_other (fs : FS) (p c q : String) (h : q ≠ p) :
    readFile (setFile fs p c) q = readFile fs q := by
  show (if p = q then some c else readFile (removeFile fs p) q) = readFile fs q
  rw [if_neg (fun he => h he.symm)]
  exact readFile_removeFile_other fs p q h

/-! ## Claim C2: copy-mode hash verification -/

/-- Success events of the verification tail certify the hashes: any
`copied`/`copied_timestamped` event it emits records a hash equal to the
independently computed source and destination hashes on the resulting
filesystem. -/
theorem verifyAndLogCopy_event_hash {hS bOk : Bool} {src orig dp : String} {fs1 fs2 : FS}
    {res : Except String Unit} {evs : List Event}
    (hr : verifyAndLogCopy hS bOk src orig dp fs1 = (res, fs2, evs)) :
    ∀ s d h sz b,
      (Event.copied s d h sz b ∈ evs ∨ Event.copiedTimestamped s d h sz b ∈ evs) →
      fileHash fs2 d = some h ∧ fileHash fs2 s = some h := by
  unfold verifyAndLogCopy at hr
  intro s d h sz b hmem
  split at hr
  · cases hr
    simp at hmem
  · split at hr
    · cases hr
      simp at hmem
    · split_ifs at hr <;> cases hr <;> simp_all

/-- Success events of the whole copy branch certify the hashes. -/
theorem copyBranch_event_hash {env : Env} {hS : Bool} {src orig dp : String} {fs fs2 : FS}
    {res : Except String Unit} {evs : List Event}
    (hr : copyBranch env hS src orig dp fs = (res, fs2, evs)) :
    ∀ s d h sz b,
      (Event.copied s d h sz b ∈ evs ∨ Event.copiedTimestamped s d h sz b ∈ evs) →
      fileHash fs2 d = some h ∧ fileHash fs2 s = some h := by
  unfold copyBranch at hr
  intro s d h sz b hmem
  split at hr
  · exact verifyAndLogCopy_event_hash hr s d h sz b hmem
  · split at hr
    · cases hr
      simp at hmem
    · split at hr
      · exact verifyAndLogCopy_event_hash hr s d h sz b hmem
      · cases hr
        simp at hmem
  · cases hr
    simp at hmem

/-- C2: in copy mode every successful materialization is verified by
independent hashing — any `copied`/`copied_timestamped` event carries a
hash equal to both the destination's and the source's hash on the
resulting filesystem (so `sha256(p) = sha256(src) = event.hash`), and a
copy whose persisted bytes differ from the source is detected: the
destination is removed and `ProcessFile` returns a hash-verification
failure with no event. -/
theorem C2_copy_hash_verification (env : Env) (cfg : Config) (user : String)
    (hasSession : Bool) (src : String) (fs : FS) (hmode : cfg.useHardlinks = false) :
    (∀ (res : Except String Unit) (fs2 : FS) (evs : List Event),
      ProcessFile env cfg user false hasSession src fs = (res, fs2, evs) →
      ∀ s d h sz b,
        (Event.copied s d h sz b ∈ evs ∨ Event.copiedTimestamped s d h sz b ∈ evs) →
        fileHash fs2 d = some h ∧ fileHash fs2 s = some h) ∧
    (∀ (t : GoTime) (conf : DateConfidence) (planned c w : String),
      getBestFileDate env src cfg = some (t, conf) →
      generateDestinationPath src t conf (determineFileType src cfg) cfg user = .ok planned →
      statExists fs planned = false →
      readFile fs src = some c →
      env.copy1 = .corrupt w → w ≠ c →
      ProcessFile env cfg user false hasSession src fs =
        (.error ("hash verification failed after copy " ++ src ++ " -> " ++ planned),
          removeFile (setFile fs planned w) planned, []) ∧
      fileHash (removeFile (setFile fs planned w) planned) planned = none) := by
  constructor
  · intro res fs2 evs hr s d h sz b hmem
    simp only [ProcessFile, materialize] at hr
    rw [hmode] at hr
    simp only [Bool.false_eq_true, if_false] at hr
    split at hr
    · cases hr
      simp at hmem
    · split at hr
      · cases hr
        simp at hmem
      · split at hr
        · cases hr
          simp at hmem
        · split at hr
          · split at hr
            · cases hr
              simp at hmem
            · cases hr
              simp at hmem
            · cases hr
              cases hasSession <;> simp at hmem
            · exact copyBranch_event_hash hr s d h sz b hmem
          · exact copyBranch_event_hash hr s d h sz b hmem
  · intro t conf planned c w hdate hgen hfree hread hcopy hne
    have hother : determineFileType src cfg ≠ .other := by
      intro ho
      rw [ho] at hgen
      simp [generateDestinationPath, Except.map] at hgen
    have hsrcne : src ≠ planned := by
      intro he
      rw [← he] at hfree
      rw [statExists_of_readFile hread] at hfree
      cases hfree
    have hstep : ProcessFile env cfg user false hasSession src fs =
        verifyAndLogCopy hasSession env.browseOk src planned planned (setFile fs planned w) := by
      simp [ProcessFile, materialize, copyBranch, copyFileAtomic, hother, hdate, hgen, hfree,
        hmode, hread, hcopy]
    refine ⟨?_, readFile_removeFile (setFile fs planned w) planned⟩
    rw [hstep]
    unfold verifyAndLogCopy
    simp only [show fileHash (setFile fs planned w) src = some c from by
        unfold fileHash; rw [readFile_setFile_other fs planned w src hsrcne]; exact hread,
      show fileHash (setFile fs planned w) planned = some w from
        readFile_setFile_self fs planned w]
    rw [if_pos (show c ≠ w from fun he => hne he.symm)]

/-- C2 witness: a corrupted copy at concrete inputs is detected and the
destination removed, discharging each hypothesis of the theorem. -/
theorem C2_copy_hash_verification_witness :
    ProcessFile ⟨some ⟨2024, 3, 15, 10, 0, 0⟩, none, 5, .corrupt "Z", .ok, true, true⟩
        ⟨"lib", "vlib", [".jpg"], [".mp4"], false, false⟩ "u" false true "in/a.jpg"
        [("in/a.jpg", "X")] =
      (.error ("hash verification failed after copy " ++ "in/a.jpg" ++ " -> " ++
          "lib/u/2024/03/15/a.jpg"),
        removeFile (setFile [("in/a.jpg", "X")] "lib/u/2024/03/15/a.jpg" "Z")
          "lib/u/2024/03/15/a.jpg", []) ∧
    fileHash (removeFile (setFile [("in/a.jpg", "X")] "lib/u/2024/03/15/a.jpg" "Z")
        "lib/u/2024/03/15/a.jpg") "lib/u/2024/03/15/a.jpg" = none :=
  (C2_copy_hash_verification ⟨some ⟨2024, 3, 15, 10, 0, 0⟩, none, 5, .corrupt "Z", .ok,
      true, true⟩ ⟨"lib", "vlib", [".jpg"], [".mp4"], false, false⟩ "u" true "in/a.jpg"
      [("in/a.jpg", "X")] rfl).2
    ⟨2024, 3, 15, 10, 0, 0⟩ .HIGH "lib/u/2024/03/15/a.jpg" "X" "Z"
    rfl rfl (by decide) rfl rfl (by decide)

/-! ## Claim C5: driver statistics bridge lemmas -/

/-- `Add` always bumps the total. -/
theorem ErrorStats.add_total (st : ErrorStats) (e : ProcessError) :
    (st.add e).total = st.total + 1 := by
  rcases e with ⟨fp, cat, sev, sug⟩
  cases sev <;> rfl

/-- `Add` bumps the critical counter exactly for critical severities. -/
theorem ErrorStats.add_critical (st : ErrorStats) (e : ProcessError) :
    (st.add e).critical = st.critical + (if e.severity = .critical then 1 else 0) := by
  rcases e with ⟨fp, cat, sev, sug⟩
  cases sev <;> simp [ErrorStats.add]

/-- The driver's total error counter counts the error steps. -/
theorem foldl_statsStep_total : ∀ (l : List Step) (st : ErrorStats),
    (l.foldl statsStep st).total = st.total + (l.filter stepIsErr).length := by
  intro l
  induction l with
  | nil => intro st; simp
  | cons s t ih =>
    intro st
    rw [List.foldl_cons, ih, List.filter_cons]
    cases s with
    | ok evs => simp [statsStep, stepIsErr]
    | err src msg =>
      simp [statsStep, stepIsErr, ErrorStats.add_total]
      omega

/-- The driver's critical counter counts the critical error steps. -/
theorem foldl_statsStep_critical : ∀ (l : List Step) (st : ErrorStats),
    (l.foldl statsStep st).critical =
      st.critical +
        (l.filter (fun s => stepSeverity s = some ErrorSeverity.critical)).length := by
  intro l
  induction l with
  | nil => intro st; simp
  | cons s t ih =>
    intro st
    rw [List.foldl_cons, ih, List.filter_cons]
    cases s with
    | ok evs => simp [statsStep, stepSeverity]
    | err src msg =>
      simp only [statsStep]
      rw [show ({ st.add (CategorizeError src msg) with
          consecutive := st.consecutive + 1 } : ErrorStats).critical =
          (st.add (CategorizeError src msg)).critical from rfl]
      rw [ErrorStats.add_critical]
      by_cases hc : (CategorizeError src msg).severity = .critical
      · simp [stepSeverity, hc]
        omega
      · simp [stepSeverity, hc]

/-- A `takeWhile` never exceeds the list's length. -/
theorem takeWhile_length_le_self {α : Type} (p : α → Bool) :
    ∀ l : List α, (l.takeWhile p).length ≤ l.length := by
  intro l
  induction l with
  | nil => simp
  | cons a t ih =>
    rw [List.takeWhile_cons]
    cases hp : p a
    · simp
    · simpa using Nat.succ_le_succ ih

/-- The driver's consecutive counter equals the length of the trailing
error run (plus the initial value when the whole list is errors). -/
theorem foldl_statsStep_consecutive : ∀ (l : List Step) (st : ErrorStats),
    (l.foldl statsStep st).consecutive =
      if (l.reverse.takeWhile stepIsErr).length = l.length then
        st.consecutive + l.length
      else (l.reverse.takeWhile stepIsErr).length := by
  intro l
  induction l using List.reverseRecOn with
  | nil => intro st; simp
  | append_singleton t x ih =>
    intro st
    rw [List.foldl_append]
    simp only [List.foldl_cons, List.foldl_nil]
    cases x with
    | ok evs =>
      have hrev : ((t ++ [Step.ok evs]).reverse.takeWhile stepIsErr).length = 0 := by
        simp [List.reverse_append, stepIsErr, List.takeWhile_cons]
      rw [hrev]
      have hlen : (t ++ [Step.ok evs]).length = t.length + 1 := by simp
      rw [hlen, if_neg (by omega)]
      rfl
    | err src msg =>
      have hrev : ((t ++ [Step.err src msg]).reverse.takeWhile stepIsErr).length =
          (t.reverse.takeWhile stepIsErr).length + 1 := by
        simp [List.reverse_append, stepIsErr, List.takeWhile_cons]
      have hlen : (t ++ [Step.err src msg]).length = t.length + 1 := by simp
      have htr : (t.reverse.takeWhile stepIsErr).length ≤ t.length := by
        calc (t.reverse.takeWhile stepIsErr).length ≤ t.reverse.length :=
              takeWhile_length_le_self stepIsErr t.reverse
          _ = t.length := by simp
      rw [hrev, hlen]
      show ({ (t.foldl statsStep st).add (CategorizeError src msg) with
        consecutive := (t.foldl statsStep st).consecutive + 1 } : ErrorStats).consecutive =
        if (t.reverse.takeWhile stepIsErr).length + 1 = t.length + 1 then
          st.consecutive + (t.length + 1)
        else (t.reverse.takeWhile stepIsErr).length + 1
      simp only []
      rw [ih]
      by_cases hfull : (t.reverse.takeWhile stepIsErr).length = t.length
      · rw [if_pos hfull, if_pos (by omega)]
        omega
      · rw [if_neg hfull, if_neg (by omega)]

/-- The three counters of `statsAfter`, in spec terms. -/
theorem statsAfter_total (l : List Step) :
    (statsAfter l).total = (l.filter stepIsErr).length := by
  rw [statsAfter, foldl_statsStep_total]
  simp [NewErrorStats]

/-- Critical counter of `statsAfter`. -/
theorem statsAfter_critical (l : List Step) :
    (statsAfter l).critical =
      (l.filter (fun s => stepSeverity s = some ErrorSeverity.critical)).length := by
  rw [statsAfter, foldl_statsStep_critical]
  simp [NewErrorStats]

/-- Consecutive counter of `statsAfter`. -/
theorem statsAfter_consecutive (l : List Step) :
    (statsAfter l).consecutive = (l.reverse.takeWhile stepIsErr).length := by
  rw [statsAfter, foldl_statsStep_consecutive]
  split_ifs with h
  · rw [show NewErrorStats.consecutive = 0 from rfl, h]
    omega
  · rfl

/-- A filter is non-empty exactly when some member satisfies the
predicate. -/
theorem count_pos_iff_any (l : List Step) (p : Step → Bool) :
    (0 < (l.filter p).length) ↔ l.any p = true := by
  induction l with
  | nil => simp
  | cons s t ih =>
    rw [List.filter_cons, List.any_cons]
    cases hp : p s
    · simp only [Bool.false_eq_true, if_false, Bool.false_or]
      exact ih
    · simp

/-- `statsAfter` over an appended step. -/
theorem statsAfter_append (l : List Step) (s : Step) :
    statsAfter (l ++ [s]) = statsStep (statsAfter l) s := by
  simp [statsAfter]

/-- `getD` to the left of an append boundary. -/
theorem getD_append_left' (done rest : List Step) (j : Nat) (hj : j < done.length) :
    (done ++ rest).getD j (.ok []) = done.getD j (.ok []) :=
  List.getD_append done rest (.ok []) j hj

/-- `getD` to the right of an append boundary. -/
theorem getD_append_right' (done rest : List Step) (k : Nat) :
    (done ++ rest).getD (done.length + k) (.ok []) = rest.getD k (.ok []) := by
  rw [List.getD_append_right done rest (.ok []) (done.length + k) (by omega)]
  congr 1
  omega

/-- Taking exactly the left part of an append. -/
theorem take_append_self (done rest : List Step) : (done ++ rest).take done.length = done := by
  simp

/-- Taking one past the append boundary. -/
theorem take_append_succ (done : List Step) (s : Step) (rest2 : List Step) :
    (done ++ s :: rest2).take (done.length + 1) = done ++ [s] := by
  rw [List.take_append_eq_append_take]
  congr 1
  · simp
  · have h1 : done.length + 1 - done.length = 1 := by omega
    rw [h1]
    rfl

/-- `eventsUpTo` one past the append boundary. -/
theorem eventsUpTo_append_succ (done : List Step) (s : Step) (rest2 : List Step) :
    eventsUpTo (done ++ s :: rest2) (done.length + 1) =
      eventsUpTo (done ++ s :: rest2) done.length ++ stepEvents s := by
  unfold eventsUpTo
  rw [take_append_succ, take_append_self]
  simp

/-- The driver's critical counter right after an error step matches the
spec-level critical search. -/
theorem errStep_bridge_critical (done rest2 : List Step) (src msg : String) :
    (0 < (statsAfter (done ++ [Step.err src msg])).critical) ↔
      hasCriticalUpTo (done ++ Step.err src msg :: rest2) (done.length + 1) = true := by
  rw [statsAfter_critical, count_pos_iff_any]
  unfold hasCriticalUpTo
  rw [take_append_succ]

/-- The driver's consecutive counter right after an error step matches
the spec-level trailing-run length. -/
theorem errStep_bridge_consecutive (done rest2 : List Step) (src msg : String) :
    (statsAfter (done ++ [Step.err src msg])).consecutive =
      consecutiveEndingAt (done ++ Step.err src msg :: rest2) done.length := by
  rw [statsAfter_consecutive]
  unfold consecutiveEndingAt
  rw [take_append_succ]

/-- The driver's total counter right after an error step matches the
spec-level error count. -/
theorem errStep_bridge_total (done rest2 : List Step) (src msg : String) :
    (statsAfter (done ++ [Step.err src msg])).total =
      errCountUpTo (done ++ Step.err src msg :: rest2) (done.length + 1) := by
  rw [statsAfter_total]
  unfold errCountUpTo
  rw [take_append_succ]

/-- Master characterization of the driver loop: starting after a prefix
`done` in which no abort condition fired, the loop either aborts at the
first remaining error step whose condition holds — having processed
exactly the files up to it and logged exactly their events, with the
code's abort reason agreeing with the spec's — or runs to completion
with no such step. -/
theorem processFilesAux_spec : ∀ (rest done : List Step) (succ : Nat) (acc : List Event),
    (∀ j, j < done.length → stepIsErr ((done ++ rest).getD j (.ok [])) = true →
      specAbortCond (done ++ rest) j = false) →
    acc = eventsUpTo (done ++ rest) done.length →
    (∃ k, k < rest.length ∧ stepIsErr (rest.getD k (.ok [])) = true ∧
      specAbortCond (done ++ rest) (done.length + k) = true ∧
      (∀ j, j < k → stepIsErr (rest.getD j (.ok [])) = true →
        specAbortCond (done ++ rest) (done.length + j) = false) ∧
      (processFilesAux rest done.length (statsAfter done) succ acc).processed =
        done.length + k + 1 ∧
      (processFilesAux rest done.length (statsAfter done) succ acc).events =
        eventsUpTo (done ++ rest) (done.length + k + 1) ∧
      (processFilesAux rest done.length (statsAfter done) succ acc).aborted =
        specAbortReason (done ++ rest) (done.length + k)) ∨
    ((∀ k, k < rest.length → stepIsErr (rest.getD k (.ok [])) = true →
        specAbortCond (done ++ rest) (done.length + k) = false) ∧
      (processFilesAux rest done.length (statsAfter done) succ acc).processed =
        (done ++ rest).length ∧
      (processFilesAux rest done.length (statsAfter done) succ acc).events =
        eventsUpTo (done ++ rest) (done ++ rest).length ∧
      (processFilesAux rest done.length (statsAfter done) succ acc).aborted = none) := by
  intro rest
  induction rest with
  | nil =>
    intro done succ acc hpre hacc
    right
    refine ⟨fun k hk => by simp at hk, ?_, ?_, ?_⟩
    · simp [processFilesAux]
    · simp only [processFilesAux]
      rw [hacc]
      simp
    · simp [processFilesAux]
  | cons s rest2 ih =>
    intro done succ acc hpre hacc
    cases s with
    | ok evs =>
      have hgetd : (done ++ Step.ok evs :: rest2).getD done.length (.ok []) = Step.ok evs := by
        have := getD_append_right' done (Step.ok evs :: rest2) 0
        simpa using this
      have hassoc : (done ++ [Step.ok evs]) ++ rest2 = done ++ Step.ok evs :: rest2 := by
        simp
      have hstep : processFilesAux (Step.ok evs :: rest2) done.length (statsAfter done) succ acc =
          processFilesAux rest2 (done.length + 1) (statsAfter (done ++ [Step.ok evs]))
            (succ + 1) (acc ++ evs) := by
        simp only [processFilesAux]
        rw [statsAfter_append]
        rfl
      have hpre2 : ∀ j, j < (done ++ [Step.ok evs]).length →
          stepIsErr (((done ++ [Step.ok evs]) ++ rest2).getD j (.ok [])) = true →
          specAbortCond ((done ++ [Step.ok evs]) ++ rest2) j = false := by
        intro j hj herr
        rw [hassoc] at herr ⊢
        have hj2 : j < done.length + 1 := by simpa using hj
        rcases Nat.lt_or_ge j done.length with hlt | hge
        · exact hpre j hlt (by rwa [getD_append_left' done _ j hlt,
            ← getD_append_left' done (Step.ok evs :: rest2) j hlt])
        · have hj3 : j = done.length := by omega
          rw [hj3, hgetd] at herr
          simp [stepIsErr] at herr
      have hacc2 : acc ++ evs = eventsUpTo ((done ++ [Step.ok evs]) ++ rest2)
          ((done ++ [Step.ok evs]).length) := by
        rw [hassoc]
        have hlen : (done ++ [Step.ok evs]).length = done.length + 1 := by simp
        rw [hlen, eventsUpTo_append_succ done (Step.ok evs) rest2, ← hacc]
        rfl
      have hlen : (done ++ [Step.ok evs]).length = done.length + 1 := by simp
      rcases ih (done ++ [Step.ok evs]) (succ + 1) (acc ++ evs) hpre2 hacc2 with
        ⟨k, hk1, hk2, hk3, hk4, hk5, hk6, hk7⟩ | ⟨hall, hp2, he2, ha2⟩
      · left
        rw [hlen] at hk3 hk4 hk5 hk6 hk7
        rw [hstep, ← hassoc]
        refine ⟨k + 1, by simpa using hk1, by simpa using hk2, ?_, ?_, ?_, ?_, ?_⟩
        · rw [show done.length + (k + 1) = done.length + 1 + k by omega]
          exact hk3
        · intro j hj herr
          cases j with
          | zero =>
            rw [List.getD_cons_zero] at herr
            simp [stepIsErr] at herr
          | succ j2 =>
            rw [show done.length + (j2 + 1) = done.length + 1 + j2 by omega]
            exact hk4 j2 (by omega) (by simpa using herr)
        · rw [hk5]
          omega
        · rw [hk6]
          congr 1
          omega
        · rw [hk7]
          congr 1
          omega
      · right
        rw [hlen] at hall hp2 he2 ha2
        rw [hstep, ← hassoc]
        refine ⟨?_, hp2, he2, ha2⟩
        intro k hk herr
        cases k with
        | zero =>
          rw [List.getD_cons_zero] at herr
          simp [stepIsErr] at herr
        | succ k2 =>
          rw [show done.length + (k2 + 1) = done.length + 1 + k2 by omega]
          exact hall k2 (by simpa using hk) (by simpa using herr)
    | err src msg =>
      have hassoc : (done ++ [Step.err src msg]) ++ rest2 = done ++ Step.err src msg :: rest2 := by
        simp
      have hlen : (done ++ [Step.err src msg]).length = done.length + 1 := by simp
      have heq1 : ({ (statsAfter done).add (CategorizeError src msg) with
          consecutive := (statsAfter done).consecutive + 1 } : ErrorStats) =
          statsAfter (done ++ [Step.err src msg]) := by
        rw [statsAfter_append]
        rfl
      have heq2 : ((statsAfter done).add (CategorizeError src msg)).total =
          (statsAfter (done ++ [Step.err src msg])).total := by
        rw [← heq1]
      have hacc1 : acc ++ stepEvents (Step.err src msg) =
          eventsUpTo (done ++ Step.err src msg :: rest2) (done.length + 1) := by
        rw [eventsUpTo_append_succ done _ rest2, ← hacc]
      have hstep : processFilesAux (Step.err src msg :: rest2) done.length (statsAfter done)
            succ acc =
          (match (statsAfter (done ++ [Step.err src msg])).shouldAbort with
           | some r =>
             ⟨acc ++ stepEvents (Step.err src msg), statsAfter (done ++ [Step.err src msg]),
               succ, done.length + 1, some r⟩
           | none =>
             if done.length + 1 ≥ 20 ∧
                 (statsAfter (done ++ [Step.err src msg])).total > (done.length + 1) / 2 then
               ⟨acc ++ stepEvents (Step.err src msg), statsAfter (done ++ [Step.err src msg]),
                 succ, done.length + 1, some .highErrorRate⟩
             else
               processFilesAux rest2 (done.length + 1) (statsAfter (done ++ [Step.err src msg]))
                 succ (acc ++ stepEvents (Step.err src msg))) := by
        simp only [processFilesAux, stepEvents]
        rw [heq1, heq2]
      have hc := errStep_bridge_critical done rest2 src msg
      have hcons := errStep_bridge_consecutive done rest2 src msg
      have htot := errStep_bridge_total done rest2 src msg
      by_cases hcrit : 0 < (statsAfter (done ++ [Step.err src msg])).critical
      · left
        have habort : (statsAfter (done ++ [Step.err src msg])).shouldAbort =
            some .criticalErr := by
          unfold ErrorStats.shouldAbort
          rw [if_pos hcrit]
        have hres : processFilesAux (Step.err src msg :: rest2) done.length (statsAfter done)
              succ acc =
            ⟨acc ++ stepEvents (Step.err src msg), statsAfter (done ++ [Step.err src msg]),
              succ, done.length + 1, some .criticalErr⟩ := by
          rw [hstep, habort]
        refine ⟨0, by simp, by simp [stepIsErr], ?_, ?_, ?_, ?_, ?_⟩
        · rw [Nat.add_zero]
          unfold specAbortCond
          rw [hc.mp hcrit]
          simp
        · intro j hj _
          exact absurd hj (Nat.not_lt_zero j)
        · rw [hres]
        · rw [hres]
          show acc ++ stepEvents (Step.err src msg) = _
          rw [show done.length + 0 + 1 = done.length + 1 by omega]
          exact hacc1
        · rw [hres]
          show some AbortReason.criticalErr = _
          rw [Nat.add_zero]
          unfold specAbortReason
          rw [if_pos (hc.mp hcrit)]
      · have hcf : hasCriticalUpTo (done ++ Step.err src msg :: rest2) (done.length + 1) =
            false := by
          cases h : hasCriticalUpTo (done ++ Step.err src msg :: rest2) (done.length + 1) with
          | true => exact absurd (hc.mpr h) hcrit
          | false => rfl
        by_cases hten : 10 ≤ (statsAfter (done ++ [Step.err src msg])).consecutive
        · left
          have habort : (statsAfter (done ++ [Step.err src msg])).shouldAbort =
              some .tenConsecutive := by
            unfold ErrorStats.shouldAbort
            rw [if_neg (by omega), if_pos hten]
          have hres : processFilesAux (Step.err src msg :: rest2) done.length (statsAfter done)
                succ acc =
              ⟨acc ++ stepEvents (Step.err src msg), statsAfter (done ++ [Step.err src msg]),
                succ, done.length + 1, some .tenConsecutive⟩ := by
            rw [hstep, habort]
          refine ⟨0, by simp, by simp [stepIsErr], ?_, ?_, ?_, ?_, ?_⟩
          · rw [Nat.add_zero]
            unfold specAbortCond
            rw [show decide (consecutiveEndingAt (done ++ Step.err src msg :: rest2)
                done.length ≥ 10) = true from by rw [← hcons]; exact decide_eq_true hten]
            simp
          · intro j hj _
            exact absurd hj (Nat.not_lt_zero j)
          · rw [hres]
          · rw [hres]
            show acc ++ stepEvents (Step.err src msg) = _
            rw [show done.length + 0 + 1 = done.length + 1 by omega]
            exact hacc1
          · rw [hres]
            show some AbortReason.tenConsecutive = _
            rw [Nat.add_zero]
            unfold specAbortReason
            rw [if_neg (by rw [hcf]; simp), if_pos (by rw [← hcons]; exact hten)]
        · by_cases hrate : done.length + 1 ≥ 20 ∧
              (statsAfter (done ++ [Step.err src msg])).total > (done.length + 1) / 2
          · left
            have habort : (statsAfter (done ++ [Step.err src msg])).shouldAbort = none := by
              unfold ErrorStats.shouldAbort
              rw [if_neg (by omega), if_neg hten]
            have hres : processFilesAux (Step.err src msg :: rest2) done.length
                  (statsAfter done) succ acc =
                ⟨acc ++ stepEvents (Step.err src msg), statsAfter (done ++ [Step.err src msg]),
                  succ, done.length + 1, some .highErrorRate⟩ := by
              rw [hstep, habort]
              show (if done.length + 1 ≥ 20 ∧ _ > (done.length + 1) / 2 then _ else _) = _
              rw [if_pos hrate]
            refine ⟨0, by simp, by simp [stepIsErr], ?_, ?_, ?_, ?_, ?_⟩
            · rw [Nat.add_zero]
              unfold specAbortCond
              rw [show (decide (done.length + 1 ≥ 20) &&
                  decide (errCountUpTo (done ++ Step.err src msg :: rest2) (done.length + 1) >
                    (done.length + 1) / 2)) = true from by
                rw [← htot, decide_eq_true hrate.1, decide_eq_true hrate.2]
                rfl]
              simp
            · intro j hj _
              exact absurd hj (Nat.not_lt_zero j)
            · rw [hres]
            · rw [hres]
              show acc ++ stepEvents (Step.err src msg) = _
              rw [show done.length + 0 + 1 = done.length + 1 by omega]
              exact hacc1
            · rw [hres]
              show some AbortReason.highErrorRate = _
              rw [Nat.add_zero]
              unfold specAbortReason
              rw [if_neg (by rw [hcf]; simp), if_neg (by rw [← hcons]; exact hten),
                if_pos (by rw [← htot]; exact hrate)]
          · have hcondf : specAbortCond (done ++ Step.err src msg :: rest2) done.length =
                false := by
              have h2 : decide (consecutiveEndingAt (done ++ Step.err src msg :: rest2)
                  done.length ≥ 10) = false := by
                rw [← hcons]
                exact decide_eq_false hten
              have h3 : (decide (done.length + 1 ≥ 20) &&
                  decide (errCountUpTo (done ++ Step.err src msg :: rest2) (done.length + 1) >
                    (done.length + 1) / 2)) = false := by
                rw [← htot]
                by_cases ha : done.length + 1 ≥ 20
                · have hb : ¬ (statsAfter (done ++ [Step.err src msg])).total >
                      (done.length + 1) / 2 := fun hb => hrate ⟨ha, hb⟩
                  rw [decide_eq_false hb, Bool.and_false]
                · rw [decide_eq_false ha, Bool.false_and]
              unfold specAbortCond
              rw [hcf, h2, h3]
              rfl
            have habort : (statsAfter (done ++ [Step.err src msg])).shouldAbort = none := by
              unfold ErrorStats.shouldAbort
              rw [if_neg (by omega), if_neg hten]
            have hres : processFilesAux (Step.err src msg :: rest2) done.length
                  (statsAfter done) succ acc =
                processFilesAux rest2 (done.length + 1) (statsAfter (done ++ [Step.err src msg]))
                  succ (acc ++ stepEvents (Step.err src msg)) := by
              rw [hstep, habort]
              show (if done.length + 1 ≥ 20 ∧ _ > (done.length + 1) / 2 then _ else _) = _
              rw [if_neg hrate]
            have hgetd : (done ++ Step.err src msg :: rest2).getD done.length (.ok []) =
                Step.err src msg := by
              have := getD_append_right' done (Step.err src msg :: rest2) 0
              simpa using this
            have hpre2 : ∀ j, j < (done ++ [Step.err src msg]).length →
                stepIsErr (((done ++ [Step.err src msg]) ++ rest2).getD j (.ok [])) = true →
                specAbortCond ((done ++ [Step.err src msg]) ++ rest2) j = false := by
              intro j hj herr
              rw [hassoc] at herr ⊢
              have hj2 : j < done.length + 1 := by simpa using hj
              rcases Nat.lt_or_ge j done.length with hlt | hge
              · exact hpre j hlt (by rwa [getD_append_left' done _ j hlt,
                  ← getD_append_left' done (Step.err src msg :: rest2) j hlt])
              · have hj3 : j = done.length := by omega
                rw [hj3]
                exact hcondf
            have hacc2 : acc ++ stepEvents (Step.err src msg) =
                eventsUpTo ((done ++ [Step.err src msg]) ++ rest2)
                  ((done ++ [Step.err src msg]).length) := by
              rw [hassoc, hlen]
              exact hacc1
            rcases ih (done ++ [Step.err src msg]) succ (acc ++ stepEvents (Step.err src msg))
                hpre2 hacc2 with
              ⟨k, hk1, hk2, hk3, hk4, hk5, hk6, hk7⟩ | ⟨hall, hp2, he2, ha2⟩
            · left
              rw [hassoc] at hk3 hk4 hk6 hk7
              rw [hlen] at hk3 hk4 hk5 hk6 hk7
              rw [hres]
              refine ⟨k + 1, by simpa using hk1, by simpa using hk2, ?_, ?_, ?_, ?_, ?_⟩
              · rw [show done.length + (k + 1) = done.length + 1 + k by omega]
                exact hk3
              · intro j hj herr
                cases j with
                | zero =>
                  rw [Nat.add_zero]
                  exact hcondf
                | succ j2 =>
                  rw [show done.length + (j2 + 1) = done.length + 1 + j2 by omega]
                  exact hk4 j2 (by omega) (by simpa using herr)
              · rw [hk5]
                omega
              · rw [hk6]
                congr 1
                omega
              · rw [hk7]
                congr 1
                omega
            · right
              rw [hassoc] at hall he2 hp2
              rw [hlen] at hall hp2 he2 ha2
              rw [hres]
              refine ⟨?_, hp2, he2, ha2⟩
              intro k hk herr
              cases k with
              | zero =>
                rw [Nat.add_zero]
                exact hcondf
              | succ k2 =>
                rw [show done.length + (k2 + 1) = done.length + 1 + k2 by omega]
                exact hall k2 (by simpa using hk) (by simpa using herr)

/-- C5: the driver's circuit breaker, characterized.  Corrected from the
claim: every abort condition — a critical-severity error, ten
consecutive errors, or (once at least 20 files are processed) an error
count exceeding half the processed count — is evaluated only at error
steps, never after a success, so the run aborts (processing stops and no
further events are logged) exactly when some error step satisfies a
condition at the moment it is processed; a run can end with 20+
processed and errors exceeding half without aborting if the rate
condition never held at an error step. -/
theorem C5_circuit_breaker (steps : List Step) :
    (∃ k, k < steps.length ∧ stepIsErr (steps.getD k (.ok [])) = true ∧
      specAbortCond steps k = true ∧
      (∀ j, j < k → stepIsErr (steps.getD j (.ok [])) = true →
        specAbortCond steps j = false) ∧
      (processFiles steps).processed = k + 1 ∧
      (processFiles steps).events = eventsUpTo steps (k + 1) ∧
      (processFiles steps).aborted = specAbortReason steps k) ∨
    ((∀ k, k < steps.length → stepIsErr (steps.getD k (.ok [])) = true →
        specAbortCond steps k = false) ∧
      (processFiles steps).processed = steps.length ∧
      (processFiles steps).events = eventsUpTo steps steps.length ∧
      (processFiles steps).aborted = none) := by
  have h := processFilesAux_spec steps [] 0 []
    (fun j hj _ => absurd hj (Nat.not_lt_zero j)) rfl
  simp only [List.nil_append, List.length_nil, Nat.zero_add] at h
  exact h

/-- A closed instance of the C5 characterization: a run of one
successful step completes without aborting. -/
theorem C5_circuit_breaker_witness : (processFiles [Step.ok []]).aborted = none := by
  rcases C5_circuit_breaker [Step.ok []] with ⟨k, hk, herr, _⟩ | ⟨_, _, _, ha⟩
  · have hk0 : k = 0 := by
      simp only [List.length_singleton] at hk
      omega
    rw [hk0] at herr
    simp [stepIsErr] at herr
  · exact ha

/-- C5 counterexample to the claimed rate rule: a run of 21 steps with
18 errors (never 10 consecutive, none critical) ends with at least 20
files processed and an error count well beyond half the processed count,
yet the driver completes without aborting — the rate condition is only
consulted at error steps, and every error here occurs before the 20-file
threshold. -/
theorem C5_counterexample :
    (processFiles (List.replicate 9 (Step.err "f" "boom") ++ Step.ok [] ::
        (List.replicate 9 (Step.err "f" "boom") ++ [Step.ok [], Step.ok []]))).aborted = none ∧
    (processFiles (List.replicate 9 (Step.err "f" "boom") ++ Step.ok [] ::
        (List.replicate 9 (Step.err "f" "boom") ++ [Step.ok [], Step.ok []]))).processed = 21 ∧
    (processFiles (List.replicate 9 (Step.err "f" "boom") ++ Step.ok [] ::
        (List.replicate 9 (Step.err "f" "boom") ++ [Step.ok [], Step.ok []]))).stats.total = 18 ∧
    21 ≥ 20 ∧ 18 > 21 / 2 := by
  refine ⟨?_, ?_, ?_, by decide, by decide⟩ <;> rfl

/-- The hardlink-replacement fallback logs no event at all. -/
theorem hardlinkReplaceBranch_events (env : Env) (src dest : String) (fs : FS) :
    (hardlinkReplaceBranch env src dest fs).2.2 = [] := by
  unfold hardlinkReplaceBranch
  repeat' split
  all_goals rfl

/-- `verifyAndLogCopy` logs at most one event. -/
theorem verifyAndLogCopy_events_len (hasSession browseOk : Bool) (src origDest dest : String)
    (fs : FS) : (verifyAndLogCopy hasSession browseOk src origDest dest fs).2.2.length ≤ 1 := by
  unfold verifyAndLogCopy
  repeat' split
  all_goals simp

/-- The copy branch logs at most one event. -/
theorem copyBranch_events_len (env : Env) (hasSession : Bool) (src origDest dest : String)
    (fs : FS) : (copyBranch env hasSession src origDest dest fs).2.2.length ≤ 1 := by
  unfold copyBranch
  split
  · apply verifyAndLogCopy_events_len
  · split
    · simp
    · split
      · apply verifyAndLogCopy_events_len
      · simp
  · simp

/-- The hardlink branch logs at most one event. -/
theorem hardlinkBranch_events_len (env : Env) (hasSession : Bool) (src origDest dest : String)
    (destExists : Bool) (fs : FS) :
    (hardlinkBranch env hasSession src origDest dest destExists fs).2.2.length ≤ 1 := by
  dsimp only [hardlinkBranch]
  split
  · rw [hardlinkReplaceBranch_events]
    simp
  · repeat' split
    all_goals simp

/-- A `ProcessFile` call with a session logs at most one event. -/
theorem ProcessFile_events_len (env : Env) (cfg : Config) (user src : String) (fs : FS) :
    (ProcessFile env cfg user false true src fs).2.2.length ≤ 1 := by
  dsimp only [ProcessFile, materialize]
  repeat' split
  all_goals first
    | apply hardlinkBranch_events_len
    | apply copyBranch_events_len
    | simp

/-- When `verifyAndLogCopy` fails, it logs nothing. -/
theorem verifyAndLogCopy_error_events (hasSession browseOk : Bool)
    (src origDest dest : String) (fs : FS) (e : String) :
    (verifyAndLogCopy hasSession browseOk src origDest dest fs).1 = .error e →
    (verifyAndLogCopy hasSession browseOk src origDest dest fs).2.2 = [] := by
  unfold verifyAndLogCopy
  repeat' split
  all_goals intro h
  all_goals first | rfl | simp at h

/-- When the copy branch fails, it logs nothing. -/
theorem copyBranch_error_events (env : Env) (hasSession : Bool) (src origDest dest : String)
    (fs : FS) (e : String) :
    (copyBranch env hasSession src origDest dest fs).1 = .error e →
    (copyBranch env hasSession src origDest dest fs).2.2 = [] := by
  unfold copyBranch
  split
  · apply verifyAndLogCopy_error_events
  · split
    · intro h
      rfl
    · split
      · apply verifyAndLogCopy_error_events
      · intro h
        rfl
  · intro h
    rfl

/-- When the hardlink branch fails, it logs nothing. -/
theorem hardlinkBranch_error_events (env : Env) (hasSession : Bool)
    (src origDest dest : String) (destExists : Bool) (fs : FS) (e : String) :
    (hardlinkBranch env hasSession src origDest dest destExists fs).1 = .error e →
    (hardlinkBranch env hasSession src origDest dest destExists fs).2.2 = [] := by
  dsimp only [hardlinkBranch]
  split
  · intro h
    rw [hardlinkReplaceBranch_events]
  · repeat' split
    all_goals intro h
    all_goals first | rfl | simp at h

/-- When a `ProcessFile` call with a session fails, it logs nothing: the
error event is written by the driver, once per failure. -/
theorem ProcessFile_error_events (env : Env) (cfg : Config) (user src : String) (fs : FS)
    (e : String) :
    (ProcessFile env cfg user false true src fs).1 = .error e →
    (ProcessFile env cfg user false true src fs).2.2 = [] := by
  dsimp only [ProcessFile, materialize]
  repeat' split
  all_goals first
    | apply hardlinkBranch_error_events
    | apply copyBranch_error_events
    | (intro h; first | rfl | simp at h)

/-- Successful copy-mode verification logs exactly one event:
`copied_timestamped` when the final path differs from the planned one,
`copied` otherwise. -/
theorem verifyAndLogCopy_ok_events (src origDest dest : String) (fs : FS) (h : String)
    (h1 : fileHash fs src = some h) (h2 : fileHash fs dest = some h) :
    verifyAndLogCopy true true src origDest dest fs =
      (.ok (), fs,
        [if dest = origDest then Event.copied src dest h h.length (baseNameOf dest)
         else Event.copiedTimestamped src dest h h.length (baseNameOf dest)]) := by
  unfold verifyAndLogCopy
  rw [h1, h2]
  by_cases hd : dest = origDest <;> simp [hd]

/-- When the browse hardlink fails, a successful copy-mode
materialization logs no event at all. -/
theorem verifyAndLogCopy_nobrowse (src origDest dest : String) (fs : FS) (h : String)
    (h1 : fileHash fs src = some h) (h2 : fileHash fs dest = some h) :
    verifyAndLogCopy true false src origDest dest fs = (.ok (), fs, []) := by
  unfold verifyAndLogCopy
  rw [h1, h2]
  simp

/-- A successful non-replacement hardlink logs `copied` — even when the
final path differs from the planned one. -/
theorem hardlinkBranch_copied (env : Env) (src origDest dest : String) (destExists : Bool)
    (fs : FS) (c : String) (hc : readFile fs src = some c) (hne : dest ≠ origDest)
    (hlink : env.linkOk = true) (hbrowse : env.browseOk = true) :
    hardlinkBranch env true src origDest dest destExists fs =
      (.ok (), setFile fs dest c, [Event.copied src dest c c.length (baseNameOf dest)]) := by
  dsimp only [hardlinkBranch]
  rw [if_neg (by simp [hne])]
  rw [hc]
  simp [hlink, hbrowse]

/-- C4: per-file manifest discipline, corrected from the claim.  A
`ProcessFile` call with a session logs at most one event and logs
nothing when it fails (the driver writes the one `error` event per
failure); in copy mode a verified materialization logs exactly one
event, `copied_timestamped` precisely when the final path differs from
the planned one; but when the browse hardlink fails the success event is
suppressed entirely, and in hardlink mode a successful link always logs
`copied`, even at a timestamp-suffixed path differing from the planned
one. -/
theorem C4_manifest_events (env : Env) (cfg : Config) (user src origDest dest : String)
    (fs : FS) :
    ((ProcessFile env cfg user false true src fs).2.2.length ≤ 1 ∧
      (∀ e, (ProcessFile env cfg user false true src fs).1 = .error e →
        (ProcessFile env cfg user false true src fs).2.2 = [])) ∧
    (∀ h, fileHash fs src = some h → fileHash fs dest = some h →
      verifyAndLogCopy true true src origDest dest fs =
        (.ok (), fs,
          [if dest = origDest then Event.copied src dest h h.length (baseNameOf dest)
           else Event.copiedTimestamped src dest h h.length (baseNameOf dest)])) ∧
    (∀ h, fileHash fs src = some h → fileHash fs dest = some h →
      verifyAndLogCopy true false src origDest dest fs = (.ok (), fs, [])) ∧
    (∀ c (destExists : Bool), readFile fs src = some c → dest ≠ origDest →
      env.linkOk = true → env.browseOk = true →
      hardlinkBranch env true src origDest dest destExists fs =
        (.ok (), setFile fs dest c, [Event.copied src dest c c.length (baseNameOf dest)])) :=
  ⟨⟨ProcessFile_events_len env cfg user src fs,
    fun e => ProcessFile_error_events env cfg user src fs e⟩,
   fun h h1 h2 => verifyAndLogCopy_ok_events src origDest dest fs h h1 h2,
   fun h h1 h2 => verifyAndLogCopy_nobrowse src origDest dest fs h h1 h2,
   fun c destExists hc hne hl hb =>
     hardlinkBranch_copied env src origDest dest destExists fs c hc hne hl hb⟩

/-- A closed instance of the C4 discipline: a hardlink collision placed
at a timestamp-suffixed path logs a `copied` event. -/
theorem C4_manifest_events_witness :
    hardlinkBranch ⟨some ⟨2024, 3, 15, 10, 0, 0⟩, none, 1700000000, .ok, .ok, true, true⟩ true
        "in/photo.jpg" "lib/u/2024/03/15/photo.jpg" "lib/u/2024/03/15/photo_1700000000.jpg" true
        [("in/photo.jpg", "X"), ("lib/u/2024/03/15/photo.jpg", "Y")] =
      (.ok (),
        setFile [("in/photo.jpg", "X"), ("lib/u/2024/03/15/photo.jpg", "Y")]
          "lib/u/2024/03/15/photo_1700000000.jpg" "X",
        [Event.copied "in/photo.jpg" "lib/u/2024/03/15/photo_1700000000.jpg" "X" 1
          "photo_1700000000.jpg"]) :=
  (C4_manifest_events ⟨some ⟨2024, 3, 15, 10, 0, 0⟩, none, 1700000000, .ok, .ok, true, true⟩
      ⟨"lib", "vlib", [".jpg"], [], false, true⟩ "u" "in/photo.jpg"
      "lib/u/2024/03/15/photo.jpg" "lib/u/2024/03/15/photo_1700000000.jpg"
      [("in/photo.jpg", "X"), ("lib/u/2024/03/15/photo.jpg", "Y")]).2.2.2
    "X" true rfl (by decide) rfl rfl

/-- C4 counterexample to the claimed `copied_timestamped` rule: in
hardlink mode, a collision resolved to a timestamp-suffixed final path —
differing from the planned canonical path — is logged with a `copied`
event, not `copied_timestamped`. -/
theorem C4_counterexample :
    (ProcessFile ⟨some ⟨2024, 3, 15, 10, 0, 0⟩, none, 1700000000, .ok, .ok, true, true⟩
        ⟨"lib", "vlib", [".jpg"], [], false, true⟩ "u" false true "in/photo.jpg"
        [("in/photo.jpg", "X"), ("lib/u/2024/03/15/photo.jpg", "Y")]).2.2 =
      [Event.copied "in/photo.jpg" "lib/u/2024/03/15/photo_1700000000.jpg" "X" 1
        "photo_1700000000.jpg"] ∧
    generateDestinationPath "in/photo.jpg" ⟨2024, 3, 15, 10, 0, 0⟩ .HIGH .image
        ⟨"lib", "vlib", [".jpg"], [], false, true⟩ "u" =
      .ok "lib/u/2024/03/15/photo.jpg" ∧
    "lib/u/2024/03/15/photo_1700000000.jpg" ≠ "lib/u/2024/03/15/photo.jpg" :=
  ⟨rfl, rfl, by decide⟩

end Anduril
